import Mathlib

/-!
Verification of the SLiVER core against its specification.

This file shallowly embeds the parts of the code base that the claims
C1-C10 are about:

* `src/sliver/analysis/domains.py` (the `Interval` and `Stripes` classes);
* `src/sliver/app/info.py` (`Variable.values`);
* `src/sliver/atlas/concretizer.py` (`_add_soft_constraints`,
  `_setup_scheduler`, `add_pick`, `get_concretization`);
* `src/sliver/atlas/atlas.py` (`remove_quant`);
* `src/sliver/analysis/value_analysis.py` (`eval_expr` and the fixpoint loop);
* `src/sliver/app/cex.py` (`translate_cadp`).

Python machine integers are unbounded, so they are embedded as `Int`;
Python `%` on integers is `Int.fmod` (sign of the divisor) and Python `//`
is `Int.fdiv`.  Code that can raise an exception is embedded with
`Option`/`Except`.
-/

namespace Sliver

/-! ## Intervals (class `Interval`, src/sliver/analysis/domains.py) -/

/-- An inclusive integer interval `[min, max]`.  The Python constructor
rejects `min > max`; we carry no proof field and state well-formedness
separately where needed. -/
structure Interval where
  min : Int
  max : Int
deriving DecidableEq, Repr

namespace Interval

/-- `n in self` (`Interval.__contains__`). -/
def memI (n : Int) (a : Interval) : Prop := a.min ≤ n ∧ n ≤ a.max

instance (n : Int) (a : Interval) : Decidable (memI n a) :=
  inferInstanceAs (Decidable (a.min ≤ n ∧ n ≤ a.max))

/-- `Interval.is_within`. -/
def is_within (a b : Interval) : Prop := a.min ≥ b.min ∧ a.max ≤ b.max

instance (a b : Interval) : Decidable (is_within a b) :=
  inferInstanceAs (Decidable (a.min ≥ b.min ∧ a.max ≤ b.max))

/-- `Interval.overlaps`. -/
def overlaps (a b : Interval) : Prop :=
  is_within a b ∨ is_within b a ∨
    (b.min ≤ a.min ∧ a.min ≤ b.max) ∨ (b.min ≤ a.max ∧ a.max ≤ b.max)

instance (a b : Interval) : Decidable (overlaps a b) :=
  inferInstanceAs (Decidable (_ ∨ _ ∨ _ ∨ _))

/-- `Interval.adjacent`. -/
def adjacent (a b : Interval) : Prop :=
  ¬ overlaps a b ∧ (a.max = b.min - 1 ∨ a.min = b.max + 1)

instance (a b : Interval) : Decidable (adjacent a b) :=
  inferInstanceAs (Decidable (¬ _ ∧ (_ ∨ _)))

/-- `Interval.join`. -/
def join (a b : Interval) : Interval :=
  ⟨Min.min a.min b.min, Max.max a.max b.max⟩

/-- `Interval.__add__`. -/
def add (a b : Interval) : Interval := ⟨a.min + b.min, a.max + b.max⟩

/-- `Interval.__neg__`. -/
def neg (a : Interval) : Interval := ⟨-a.max, -a.min⟩

/-- `Interval.__sub__` (`self + (-other)`). -/
def sub (a b : Interval) : Interval := add a (neg b)

/-- `Interval.__invert__`. -/
def inv (a : Interval) : Interval :=
  if memI 1 a ∧ ¬ memI 0 a then ⟨0, 0⟩
  else if memI 0 a ∧ ¬ memI 1 a then ⟨1, 1⟩
  else ⟨0, 1⟩

/-- `Interval.__mul__`: min/max of the four endpoint products. -/
def mul (a b : Interval) : Interval :=
  let v1 := a.min * b.min
  let v2 := a.min * b.max
  let v3 := a.max * b.min
  let v4 := a.max * b.max
  ⟨Min.min (Min.min v1 v2) (Min.min v3 v4),
   Max.max (Max.max v1 v2) (Max.max v3 v4)⟩

/-- `Interval.__abs__`. -/
def iabs (a : Interval) : Interval :=
  let amin := |a.min|
  let amax := |a.max|
  ⟨Min.min amin amax, Max.max amin amax⟩

/-- `Interval.Min`. -/
def Minop (a b : Interval) : Interval :=
  ⟨Min.min a.min b.min, Min.min a.max b.max⟩

/-- `Interval.Max`. -/
def Maxop (a b : Interval) : Interval :=
  ⟨Max.max a.min b.min, Max.max a.max b.max⟩

/-- `Interval.equality` (cannot use `__eq__`, which is structural). -/
def equality (a b : Interval) : Interval :=
  if a.min > b.max ∨ a.max < b.min then ⟨0, 0⟩
  else if a.min = a.max ∧ a.max = b.min ∧ b.min = b.max then ⟨1, 1⟩
  else ⟨0, 1⟩

/-- The list `lo, lo+1, …, hi` (empty when `hi < lo`), as produced by
Python `range(lo, hi+1)`. -/
def intList (lo hi : Int) : List Int :=
  (List.range (hi - lo + 1).toNat).map (fun k => lo + (k : Int))

/-- `Interval.__mod__`.  Python raises `ZeroDivisionError` as soon as it
evaluates `num % 0`, i.e. whenever either endpoint of the divisor is 0
(the guard `if other != 0` in the source compares an `Interval` object,
which is always truthy, so it never filters anything); Python `%` has
the sign of the divisor, i.e. `Int.fmod`. -/
def modI (a b : Interval) : Option Interval :=
  if b.min = 0 ∨ b.max = 0 then none
  else
    let vals := (intList a.min a.max).flatMap
      (fun n => [Int.fmod n b.min, Int.fmod n b.max])
    match vals with
    | [] => none
    | v :: vs => some ⟨vs.foldl Min.min v, vs.foldl Max.max v⟩

end Interval

/-! ## Stripes (class `Stripes`, src/sliver/analysis/domains.py)

A `Stripes` value is the frozenset `self.stripes`, embedded as a
`Finset Interval`. -/

/-- The set of joins of all ordered pairs of distinct intervals that
overlap (or, when `adj` is set, are adjacent), i.e. the set `joins`
computed by one iteration of `Stripes._prune`. -/
def joins (S : Finset Interval) (adj : Bool) : Finset Interval :=
  ((S ×ˢ S).filter
    (fun p => p.1 ≠ p.2 ∧
      (Interval.overlaps p.1 p.2 ∨ (adj ∧ Interval.adjacent p.1 p.2)))).image
    (fun p => Interval.join p.1 p.2)

/-- The set `subsets` computed by one iteration of `Stripes._prune`:
all members that lie (strictly) within another member. -/
def subsets (X : Finset Interval) : Finset Interval :=
  X.filter (fun a => ∃ b ∈ X, Interval.is_within a b ∧ a ≠ b)

/-- One iteration of the `while` loop of `Stripes._prune`:
`stripes |= joins; stripes -= subsets`. -/
def pruneStep (S : Finset Interval) (adj : Bool) : Finset Interval :=
  let X := S ∪ joins S adj
  X \ subsets X

/-- The loop condition `changed` of `Stripes._prune`
(`len(joins) + len(subsets) > 0`). -/
def changed (S : Finset Interval) (adj : Bool) : Prop :=
  (joins S adj).Nonempty ∨ (subsets (S ∪ joins S adj)).Nonempty

instance (S : Finset Interval) (adj : Bool) : Decidable (changed S adj) :=
  inferInstanceAs (Decidable (_ ∨ _))

/-- `S` is an antichain under interval containment (no member strictly
within another). -/
def isAntichain (S : Finset Interval) : Prop :=
  ∀ a ∈ S, ∀ b ∈ S, Interval.is_within a b → a = b

instance (S : Finset Interval) : Decidable (isAntichain S) :=
  inferInstanceAs (Decidable (∀ a ∈ S, ∀ b ∈ S, Interval.is_within a b → a = b))

/-- Fuel bound for the `_prune` loop; proved sufficient below
(`pruneMeasure_decreases`). -/
def pruneMeasure (S : Finset Interval) : Nat :=
  if isAntichain S then S.card else S.card * S.card + S.card + 1

/-- The `while` loop of `Stripes._prune`, with explicit fuel.  With fuel
`pruneMeasure S + 1` the fuel never runs out (see `pruneFuel_not_changed`),
so the 0-fuel branch is dead code and `prune` below computes exactly what
the Python loop computes. -/
def pruneFuel : Nat → Finset Interval → Bool → Finset Interval
  | 0, S, _ => S
  | n + 1, S, adj => if changed S adj then pruneFuel n (pruneStep S adj) adj else S

/-- `Stripes._prune(stripes, prune_adjacent)`. -/
def prune (S : Finset Interval) (adj : Bool) : Finset Interval :=
  pruneFuel (pruneMeasure S + 1) S adj

/-- The two invariants of the `Stripes` data type: no two distinct
intervals overlap, and no interval is (strictly) within another. -/
def StripesInv (S : Finset Interval) : Prop :=
  (∀ a ∈ S, ∀ b ∈ S, a ≠ b → ¬ Interval.overlaps a b) ∧
  (∀ a ∈ S, ∀ b ∈ S, a ≠ b → ¬ Interval.is_within a b)

instance (S : Finset Interval) : Decidable (StripesInv S) :=
  inferInstanceAs (Decidable (_ ∧ _))

namespace Stripes

/-- `Stripes.abstract(*values)`. -/
def abstract (values : List Int) : Finset Interval :=
  prune ((values.map (fun v => (⟨v, v⟩ : Interval))).toFinset) true

/-- `Stripes.abstract_range(range(lo, hi))` = `S(min(rng), max(rng))`.
For a nonempty `range(lo, hi)` (i.e. `lo < hi`), `min` is `lo` and `max`
is `hi - 1`; on an empty range Python raises, which the claims exclude. -/
def abstract_range (lo hi : Int) : Finset Interval :=
  {(⟨lo, hi - 1⟩ : Interval)}

/-- `Stripes._combine(self, other, fn)` wrapped in the `Stripes`
constructor, as used by `+ - * equality Min Max`. -/
def combine (S T : Finset Interval) (f : Interval → Interval → Interval) :
    Finset Interval :=
  prune ((S ×ˢ T).image (fun p => f p.1 p.2)) false

/-- `Stripes.__or__` (the lattice join `|`). -/
def orJoin (S T : Finset Interval) : Finset Interval := prune (S ∪ T) false

/-- `Stripes.__add__`. -/
def add (S T : Finset Interval) : Finset Interval := combine S T Interval.add

/-- `Stripes.__sub__`. -/
def sub (S T : Finset Interval) : Finset Interval := combine S T Interval.sub

/-- `Stripes.__mul__`. -/
def mul (S T : Finset Interval) : Finset Interval := combine S T Interval.mul

/-- `Stripes.Min`. -/
def Minop (S T : Finset Interval) : Finset Interval :=
  combine S T Interval.Minop

/-- `Stripes.Max`. -/
def Maxop (S T : Finset Interval) : Finset Interval :=
  combine S T Interval.Maxop

/-- `Stripes.equality`. -/
def equality (S T : Finset Interval) : Finset Interval :=
  combine S T Interval.equality

/-- `Stripes.__mod__`: `_combine` with `Interval.__mod__`, which raises
(`none`) when any divisor interval has a zero endpoint. -/
def modS (S T : Finset Interval) : Option (Finset Interval) :=
  if ∀ a ∈ S, ∀ b ∈ T, (Interval.modI a b).isSome then
    some (prune ((S ×ˢ T).image
      (fun p => (Interval.modI p.1 p.2).getD ⟨0, 0⟩)) false)
  else none

/-- `Stripes.__neg__`. -/
def neg (S : Finset Interval) : Finset Interval :=
  prune (S.image Interval.neg) false

/-- `Stripes.__invert__` (logical negation `~`). -/
def inv (S : Finset Interval) : Finset Interval :=
  prune (S.image Interval.inv) false

/-- `Stripes.__abs__`. -/
def sabs (S : Finset Interval) : Finset Interval :=
  prune (S.image Interval.iabs) false

/-- `Stripes.join_adjacent`. -/
def join_adjacent (S : Finset Interval) : Finset Interval := prune S true

/-- `n in self` (`Stripes.__contains__`). -/
def memS (n : Int) (S : Finset Interval) : Prop :=
  ∃ i ∈ S, Interval.memI n i

instance (n : Int) (S : Finset Interval) : Decidable (memS n S) :=
  inferInstanceAs (Decidable (∃ i ∈ S, Interval.memI n i))

/-- `Stripes.YES`. -/
def YES : Finset Interval := {(⟨1, 1⟩ : Interval)}

/-- `Stripes.NO`. -/
def NO : Finset Interval := {(⟨0, 0⟩ : Interval)}

/-- `Stripes.MAYBE`. -/
def MAYBE : Finset Interval := {(⟨0, 1⟩ : Interval)}

/-- `Stripes.extrema`; Python raises on an empty stripe set (`none`). -/
def extrema (S : Finset Interval) : Option (Int × Int) :=
  if h : S.Nonempty then
    some ((S.image Interval.min).min' (h.image _),
          (S.image Interval.max).max' (h.image _))
  else none

/-- `Stripes.__lt__`. -/
def lt (S T : Finset Interval) : Option (Finset Interval) := do
  let (myMin, myMax) ← extrema S
  let (otherMin, otherMax) ← extrema T
  if myMin = myMax then
    if otherMin = otherMax then
      pure {(⟨if myMin < otherMin then 1 else 0,
              if myMin < otherMin then 1 else 0⟩ : Interval)}
    else if myMin ≥ otherMax then pure NO
    else if myMax < otherMin then pure YES
    else pure MAYBE
  else if otherMin = otherMax then
    if myMin ≥ otherMin then pure NO
    else if myMax < otherMin then pure YES
    else pure MAYBE
  else if myMax < otherMin then pure YES
  else if myMin > otherMax then pure NO
  else pure MAYBE

/-- `Stripes.__gt__` (`other < self`). -/
def gt (S T : Finset Interval) : Option (Finset Interval) := lt T S

/-- `Stripes.And`. -/
def andOp (S T : Finset Interval) : Finset Interval :=
  if memS 0 S ∨ memS 0 T then
    if memS 1 S ∧ memS 1 T then MAYBE else NO
  else YES

/-- `Stripes.Or`; raises (`none`) on an empty operand (it calls
`extrema`). -/
def orOp (S T : Finset Interval) : Option (Finset Interval) := do
  let (myMin, myMax) ← extrema S
  let (otherMin, otherMax) ← extrema T
  if myMin = myMax ∧ myMax = otherMin ∧ otherMin = otherMax ∧ otherMax = 0 then
    pure NO
  else if ¬ memS 0 S ∨ ¬ memS 0 T then pure YES
  else pure MAYBE

/-- `Stripes.__ge__` (`self.equality(other).Or(self > other)`). -/
def ge (S T : Finset Interval) : Option (Finset Interval) := do
  let g ← gt S T
  orOp (equality S T) g

/-- `Stripes.__le__` (`self.equality(other).Or(self < other)`). -/
def le (S T : Finset Interval) : Option (Finset Interval) := do
  let l ← lt S T
  orOp (equality S T) l

/-- `Stripes.Range`: `[self..other)` flattened; raises (`none`) when the
built interval set is empty. -/
def rangeOp (S T : Finset Interval) : Option (Finset Interval) :=
  let om1 := sub T YES
  let base := (((S.image Interval.min) ×ˢ (om1.image Interval.max)).filter
    (fun p => p.2 > p.1)).image (fun p => (⟨p.1, p.2⟩ : Interval))
  if base = ∅ then none else some (prune base false)

/-- `Stripes.is_within`. -/
def is_within (S T : Finset Interval) : Prop :=
  S = T ∨ ∀ x ∈ S, ∃ y ∈ T, Interval.is_within x y

instance (S T : Finset Interval) : Decidable (is_within S T) :=
  inferInstanceAs (Decidable (_ ∨ ∀ x ∈ S, ∃ y ∈ T, Interval.is_within x y))

/-- A total-order comparator on intervals (lexicographic on `(min, max)`),
used to enumerate a `Finset Interval` as a list. -/
def ivLeB (a b : Interval) : Bool :=
  decide (a.min < b.min) || (decide (a.min = b.min) && decide (a.max ≤ b.max))

/-- Ordered insertion of an interval into a list, by `ivLeB`. -/
def insIv (a : Interval) : List Interval → List Interval
  | [] => [a]
  | w :: rest => if ivLeB a w then a :: w :: rest else w :: insIv a rest

theorem ivLeB_total (a b : Interval) (h : ivLeB a b = false) :
    ivLeB b a = true := by
  simp only [ivLeB, Bool.or_eq_false_iff, Bool.and_eq_false_iff,
    Bool.or_eq_true, Bool.and_eq_true, decide_eq_true_eq,
    decide_eq_false_iff_not] at *
  omega

theorem ivLeB_antisymm (a b : Interval) (h1 : ivLeB a b = true)
    (h2 : ivLeB b a = true) : a = b := by
  obtain ⟨amn, amx⟩ := a
  obtain ⟨bmn, bmx⟩ := b
  simp only [ivLeB, Bool.or_eq_true, Bool.and_eq_true,
    decide_eq_true_eq] at h1 h2
  simp only [Interval.mk.injEq]
  omega

theorem ivLeB_trans (a b c : Interval) (h1 : ivLeB a b = true)
    (h2 : ivLeB b c = true) : ivLeB a c = true := by
  simp only [ivLeB, Bool.or_eq_true, Bool.and_eq_true,
    decide_eq_true_eq] at *
  omega

theorem insIv_comm (a b : Interval) :
    ∀ l, insIv a (insIv b l) = insIv b (insIv a l) := by
  intro l
  induction l with
  | nil =>
    cases hab : ivLeB a b with
    | false =>
      have hba := ivLeB_total a b hab
      simp [insIv, hab, hba]
    | true =>
      cases hba : ivLeB b a with
      | false => simp [insIv, hab, hba]
      | true => cases ivLeB_antisymm a b hab hba; rfl
  | cons w rest ih =>
    cases haw : ivLeB a w with
    | true =>
      cases hbw : ivLeB b w with
      | true =>
        cases hab : ivLeB a b with
        | false =>
          have hba := ivLeB_total a b hab
          simp [insIv, haw, hbw, hab, hba]
        | true =>
          cases hba : ivLeB b a with
          | false => simp [insIv, haw, hbw, hab, hba]
          | true => cases ivLeB_antisymm a b hab hba; rfl
      | false =>
        have hba : ivLeB b a = false := by
          cases hcon : ivLeB b a with
          | false => rfl
          | true => exact absurd (ivLeB_trans b a w hcon haw) (by simp [hbw])
        simp [insIv, haw, hbw, hba]
    | false =>
      cases hbw : ivLeB b w with
      | true =>
        have hab : ivLeB a b = false := by
          cases hcon : ivLeB a b with
          | false => rfl
          | true => exact absurd (ivLeB_trans a b w hcon hbw) (by simp [haw])
        simp [insIv, haw, hbw, hab]
      | false => simp [insIv, haw, hbw, ih]

instance : LeftCommutative insIv := ⟨insIv_comm⟩

/-- A `Finset Interval` enumerated as a list: insertion sort of the
underlying multiset (well defined because ordered insertion is
left-commutative). -/
def sortedList (S : Finset Interval) : List Interval :=
  Multiset.foldr insIv [] S.val

/-- `Stripes.bisect`.  `none` plays the role of the `(None, None)`
result (and of the `StopIteration` on an empty stripe set, which the
Python code would raise).  The order in which `list(self.stripes)`
enumerates the frozenset is unspecified in Python; we enumerate in the
`ivLe` order, which only affects how the set is split in half, not the
two invariants. -/
def bisect (S : Finset Interval) : Option (Finset Interval × Finset Interval) :=
  if 1 < S.card then
    let lst := sortedList S
    let mid := lst.length / 2
    some ((lst.take mid).toFinset, (lst.drop mid).toFinset)
  else
    match sortedList S with
    | [] => none
    | st :: _ =>
      if st.min ≠ st.max then
        let mid := Int.fdiv (st.min + st.max) 2
        some ({(⟨st.min, mid⟩ : Interval)}, {(⟨mid + 1, st.max⟩ : Interval)})
      else none

end Stripes

/-! ## System information (src/sliver/app/info.py) -/

/-- `class Variable` of `info.py`: store tag, flat base index, size,
and the raw initializer text. -/
structure PyVariable where
  index : Nat
  name : String
  size : Nat
  store : String
  init : String
  isArray : Bool
deriving DecidableEq, Repr

/-- The numeric value of a digit run. -/
def digitsVal (l : List Char) : Nat :=
  l.foldl (fun acc c => acc * 10 + (c.toNat - '0'.toNat)) 0

/-- Python `int(s)` restricted to (possibly negated) digit runs. -/
def pyToInt (s : String) : Option Int :=
  match s.toList with
  | [] => none
  | '-' :: rest =>
    if rest.isEmpty || !rest.all Char.isDigit then none
    else some (-(digitsVal rest : Int))
  | l =>
    if l.all Char.isDigit then some ((digitsVal l : Int)) else none

/-- `LabsExprVisitor` evaluation of an initializer atom: the name `id`
evaluates to the agent id, an integer literal to itself.  (The Python
visitor also accepts compound arithmetic expressions; the claims only
exercise atoms, so the embedding covers that fragment.) -/
def labsEval (id : Int) (s : String) : Option Int :=
  if s = "id" then some id else pyToInt s

/-- `True` iff the string contains the substring `".."`. -/
def strContainsDotDot (s : String) : Bool := go s.toList
where
  go : List Char → Bool
    | [] => false
    | [_] => false
    | c1 :: c2 :: rest => (c1 = '.' && c2 = '.') || go (c2 :: rest)

/-- Python `s.split(",")` on a char list. -/
def splitOnComma : List Char → List Char → List (List Char)
  | [], acc => [acc.reverse]
  | c :: rest, acc =>
    if c = ',' then acc.reverse :: splitOnComma rest []
    else splitOnComma rest (c :: acc)

/-- Python `s.split("..")` on a char list. -/
def splitOnDotDot : List Char → List Char → List (List Char)
  | [], acc => [acc.reverse]
  | [c], acc => [(c :: acc).reverse]
  | c1 :: c2 :: rest, acc =>
    if c1 = '.' && c2 = '.' then acc.reverse :: splitOnDotDot rest []
    else splitOnDotDot (c2 :: rest) (c1 :: acc)

/-- The list `[lo, lo+1, …, hi-1]`, i.e. Python `list(range(lo, hi))`. -/
def pyRange (lo hi : Int) : List Int :=
  (List.range (hi - lo).toNat).map (fun k => lo + (k : Int))

/-- `Variable.values(id)`: branch on the initializer text in source
order (`[…]` list, then `..` range, then the exact text `undef`, then a
single literal).  `none` models a raised exception (unparseable text,
empty initializer). -/
def pyValues (v : PyVariable) (id : Int) : Option (List Int) :=
  match v.init.toList with
  | [] => none
  | c :: rest =>
    if c = '[' then
      -- `self.init[1:-1].split(",")`, each entry evaluated
      (splitOnComma rest.dropLast []).mapM (fun cs => labsEval id (String.mk cs))
    else if strContainsDotDot v.init then
      match splitOnDotDot (c :: rest) [] with
      | [lo, hi] => do
          let l ← labsEval id (String.mk lo)
          let h ← labsEval id (String.mk hi)
          pure (pyRange l h)
      | _ => none
    else if v.init = "undef" then some [-32767]
    else (labsEval id v.init).map (fun n => [n])

/-- Stable insertion into a list sorted by `index`. -/
def insertByIndex (v : PyVariable) : List PyVariable → List PyVariable
  | [] => [v]
  | w :: rest =>
    if v.index ≤ w.index then v :: w :: rest else w :: insertByIndex v rest

/-- `lst.sort(key=lambda x: x.index)` (a stable sort by base index). -/
def sortByIndex : List PyVariable → List PyVariable
  | [] => []
  | v :: rest => insertByIndex v (sortByIndex rest)

/-- `get_var(lst, index)` of `info.py`: the (possibly array) variable
covering a flat index, after sorting by base index. -/
def getVar (lst : List PyVariable) (index : Nat) : Option PyVariable :=
  let sorted := sortByIndex lst
  if index < (sorted.map (fun v => v.size)).sum then go sorted index else none
where
  go : List PyVariable → Nat → Option PyVariable
    | [], _ => none
    | v :: rest, i => if i < v.size then some v else go rest (i - v.size)

/-! ## Concretizer (src/sliver/atlas/concretizer.py) -/

/-- An SMT integer variable of the concretization problem:
an interface cell `I_tid_idx` or an environment cell `E_idx`. -/
inductive CVar
  | I (tid idx : Nat)
  | E (idx : Nat)
deriving DecidableEq, Repr

/-- One soft constraint `Implies(b, lhs == rhs)` together with the name
of its fresh boolean. -/
structure SoftC where
  b : String
  lhs : CVar
  rhs : Int
deriving DecidableEq, Repr

/-- The SMT cells `self.attrs[tid]` declared for one agent's interface
store by `_setup_initial_state` (arrays expanded elementwise). -/
def cellsOf (tid : Nat) (iface : List PyVariable) : List CVar :=
  iface.flatMap (fun v =>
    if v.isArray then (List.range v.size).map (fun k => CVar.I tid (v.index + k))
    else [CVar.I tid v.index])

/-- The list `self.envs` after `_setup_initial_state`: the loop variable
`envs` is *overwritten* on every iteration, so only the cells of the
last environment variable remain (`[]` if there is none). -/
def envCells (envStore : List PyVariable) : List CVar :=
  match envStore.getLast? with
  | none => []
  | some v =>
    if v.isArray then (List.range v.size).map (fun k => CVar.E (v.index + k))
    else [CVar.E v.index]

/-- The body of `for i, attr in enumerate(self.attrs[tid])` in
`_add_soft_constraints`: skip the cell when its variable's value set
has cardinality 1, otherwise emit the fresh boolean and the constraint
`Implies(b, attr == rnd)`. -/
def softForCell (store : List PyVariable) (boolName : PyVariable → String)
    (constraintFor : PyVariable → CVar → Option CVar)
    (rndFor : PyVariable → Option Int) (valuesId : Int)
    (i : Nat) (attr : CVar) : Except String (Option SoftC) := do
  match getVar store i with
  | none => Except.error "KeyError"
  | some v =>
    match pyValues v valuesId with
    | none => Except.error "cannot evaluate initializer"
    | some vals =>
      if vals.length = 1 then pure Option.none
      else
        match constraintFor v attr, rndFor v with
        | some lhs, some r => pure (Option.some (⟨boolName v, lhs, r⟩ : SoftC))
        | _, _ => Except.error "NameError: name 'attr' is not defined"

/-- Index-threaded loop over a cell list, collecting the emitted soft
constraints in order. -/
def softLoop (f : Nat → CVar → Except String (Option SoftC)) :
    Nat → List CVar → Except String (List SoftC)
  | _, [] => Except.ok []
  | i, attr :: rest => do
    let o ← f i attr
    let others ← softLoop f (i + 1) rest
    pure (o.toList ++ others)

/-- The interface part of `_add_soft_constraints` for a single agent:
one fresh boolean and one `Implies(b, attr == rnd)` per nondeterministic
cell. -/
def softsForAgent (iface : List PyVariable) (tid : Nat)
    (rnd : PyVariable → Int → Int) : Except String (List SoftC) :=
  softLoop
    (softForCell iface
      (fun v => s!"{v.store}_{tid}_{v.index}_%%soft%%")
      (fun _ attr => some attr)
      (fun v => some (rnd v (Int.ofNat tid)))
      (Int.ofNat tid))
    0 (cellsOf tid iface)

/-- The `for tid in range(self.agents)` loop of `_add_soft_constraints`;
besides the constraints it returns the final values of the Python loop
variables `attr` and `tid`, which stay in scope afterwards. -/
def ifaceLoop (agents : List (List PyVariable)) (rnd : PyVariable → Int → Int) :
    Except String (List SoftC × Option CVar × Option Nat) :=
  go agents 0 [] none none
where
  go : List (List PyVariable) → Nat → List SoftC → Option CVar → Option Nat →
      Except String (List SoftC × Option CVar × Option Nat)
    | [], _, acc, la, lt => Except.ok (acc, la, lt)
    | iface :: rest, tid, acc, la, _lt => do
        let s ← softsForAgent iface tid rnd
        let la2 := match (cellsOf tid iface).getLast? with
          | some c => some c
          | none => la
        go rest (tid + 1) (acc ++ s) la2 (some tid)

/-- The environment part of `_add_soft_constraints`.  The loop variable
`env_var` is unused in the source: the constraint added is
`Implies(fresh_bool, attr == v.rnd_value(tid))`, where `attr` and `tid`
are the *leftover* values from the preceding interface loop (a
`NameError` if no interface cell was ever iterated - modelled as an
error). -/
def envLoop (envStore : List PyVariable) (cells : List CVar)
    (la : Option CVar) (lt : Option Nat) (rnd : PyVariable → Int → Int) :
    Except String (List SoftC) :=
  softLoop
    (softForCell envStore
      (fun v => s!"{v.store}_{v.index}_%%soft%%")
      (fun _ _ => la)
      (fun v => lt.map (fun tid => rnd v (Int.ofNat tid)))
      0)
    0 cells

/-- The agent interfaces (indexed by tid) and the environment store of a
concretization problem. -/
structure ConcInfo where
  agents : List (List PyVariable)
  envStore : List PyVariable

/-- `Concretizer._add_soft_constraints` (the pick part is not modelled:
the claims concern variable cells only, and the embedded problem has no
picks). -/
def addSoftConstraints (info : ConcInfo) (rnd : PyVariable → Int → Int) :
    Except String (List SoftC) := do
  let (s1, la, lt) ← ifaceLoop info.agents rnd
  let s2 ← envLoop info.envStore (envCells info.envStore) la lt rnd
  pure (s1 ++ s2)

/-- `Concretizer.isAnAgent`: `And(var >= 0, var < self.agents)`. -/
def isAnAgentP (N : Int) (x : Int) : Prop := 0 ≤ x ∧ x < N

instance (N x : Int) : Decidable (isAnAgentP N x) :=
  inferInstanceAs (Decidable (_ ∧ _))

/-- The constraints added by `Concretizer._setup_scheduler`, as a
satisfaction predicate on an assignment to `sched`: every cell is a
valid agent id, and, when fair scheduling is requested and there are no
stigmergic variables, `sched[0] == 0` and
`sched[i] == (sched[i-1] + 1) % N` (SMT-LIB `mod`, i.e. `Int.emod`). -/
def schedConstraintsHold (steps : Nat) (N : Int) (fair : Bool)
    (lstigCount : Nat) (sched : Nat → Int) : Prop :=
  (∀ i < steps, isAnAgentP N (sched i)) ∧
  (fair = true ∧ lstigCount = 0 →
    sched 0 = 0 ∧
    ∀ i < steps, 1 ≤ i → sched i = (sched (i - 1) + 1) % N)

instance (steps : Nat) (N : Int) (fair : Bool) (lstigCount : Nat)
    (sched : Nat → Int) :
    Decidable (schedConstraintsHold steps N fair lstigCount sched) :=
  inferInstanceAs (Decidable (_ ∧ _))

/-- An agent kind of `Spawn`: name, contiguous id range `[lo, hi)` and
the names of the picks its behavior uses. -/
structure AgentKind where
  name : String
  lo : Nat
  hi : Nat
  picks : List String
deriving DecidableEq, Repr

/-- `Spawn.range_of(agent_type)`: the id range of the first kind with
the given name (`KeyError`, i.e. `none`, if there is none). -/
def rangeOfKind (kinds : List AgentKind) (typ : String) : Option (Nat × Nat) :=
  (kinds.find? (fun k => k.name = typ)).map (fun k => (k.lo, k.hi))

/-- `Concretizer.isOfType` for a resolved range. -/
def isOfTypeP (rng : Nat × Nat) (x : Int) : Prop :=
  (rng.1 : Int) ≤ x ∧ x < (rng.2 : Int)

instance (rng : Nat × Nat) (x : Int) : Decidable (isOfTypeP rng x) :=
  inferInstanceAs (Decidable (_ ∧ _))

/-- The `can_pick` helper of `Concretizer.add_pick`: it iterates over
the agent kinds and returns the type constraint of the *first* kind
whose `picks` contain the name; `None` (here `none`) if no kind uses the
pick. -/
def canPickCond (kinds : List AgentKind) (name : String) :
    Option (Int → Bool) :=
  (kinds.find? (fun k => name ∈ k.picks)).bind
    (fun k => (rangeOfKind kinds k.name).map
      (fun r => fun x => decide (isOfTypeP r x)))

/-- `Spawn.__getitem__`: the kind owning an agent id (first kind with
`lo <= key < hi`). -/
def kindOfAgent (kinds : List AgentKind) (x : Int) : Option AgentKind :=
  kinds.find? (fun k => decide ((k.lo : Int) ≤ x ∧ x < (k.hi : Int)))

/-- The per-cell validity constraint of `add_pick`: `isOfType(x, typ)`
when the pick is typed, otherwise `isAnAgent(x)`. -/
def pickCellOk (kinds : List AgentKind) (N : Int) (typ : Option String) :
    Option (Int → Bool) :=
  match typ with
  | some t => (rangeOfKind kinds t).map (fun r => fun x => decide (isOfTypeP r x))
  | none => some (fun x => decide (isAnAgentP N x))

/-- The positive branch of the `If` added by `add_pick` for one step:
cells of the right type (or valid agent ids), pairwise distinct
(`p[step][i] != p[step][j]` for `i < j`), and different from
`sched[step]`. -/
def pickStepOk (size : Nat) (cellOk : Int → Bool) (schedK : Int)
    (row : Nat → Int) : Bool :=
  ((List.range size).all (fun i => cellOk (row i))) &&
  ((List.range size).all (fun j => (List.range j).all
    (fun i => decide (row i ≠ row j)))) &&
  ((List.range size).all (fun i => decide (row i ≠ schedK)))

/-- Whether a model (`sched`, `p`) satisfies the constraints added by
`Concretizer.add_pick(name, size, typ, _)`: for every step, a z3 `If`
on `can_pick(sched[step], name)` whose positive branch is `pickStepOk`
and whose negative branch forces every cell to 0.  `none` models the
crash when no kind uses the pick (or its declared type is unknown). -/
def addPickSat (kinds : List AgentKind) (N : Int) (steps size : Nat)
    (typ : Option String) (name : String)
    (sched : Nat → Int) (p : Nat → Nat → Int) : Option Bool := do
  let cp ← canPickCond kinds name
  let cellOk ← pickCellOk kinds N typ
  pure ((List.range steps).all (fun k =>
    if cp (sched k) then pickStepOk size cellOk (sched k) (p k)
    else (List.range size).all (fun i => decide (p k i = 0))))

/-- The property C4 claims of the pick cells, conditioned on whether the
kind *owning* the scheduled agent (`Spawn.__getitem__`) uses the pick. -/
def pickClaimSat (kinds : List AgentKind) (N : Int) (steps size : Nat)
    (typ : Option String) (name : String)
    (sched : Nat → Int) (p : Nat → Nat → Int) : Bool :=
  (List.range steps).all (fun k =>
    match kindOfAgent kinds (sched k) with
    | some kk =>
      if name ∈ kk.picks then
        match pickCellOk kinds N typ with
        | some cellOk => pickStepOk size cellOk (sched k) (p k)
        | none => false
      else (List.range size).all (fun i => decide (p k i = 0))
    | none => (List.range size).all (fun i => decide (p k i = 0)))

/-- The result states of a z3 `check()` call. -/
inductive CheckResult
  | sat
  | unsat
  | unknown
deriving DecidableEq, Repr

/-- The soft-retraction loop of `Concretizer.get_concretization`,
structurally recursing on the reversed soft list: call `check` with the
current assumptions; on sat stop; otherwise pop one soft constraint off
the *tail* of the list and retry; once the list is empty, one final
check with no assumptions decides. -/
def retractRev (check : List String → CheckResult) :
    List String → CheckResult × List String
  | [] => (check [], [])
  | s :: rest =>
    match check ((s :: rest).reverse) with
    | CheckResult.sat => (CheckResult.sat, (s :: rest).reverse)
    | _ => retractRev check rest

/-- The `while check != sat` loop of `get_concretization` on the
(shuffled) soft list. -/
def retractLoop (check : List String → CheckResult) (softs : List String) :
    CheckResult × List String :=
  retractRev check softs.reverse

/-- `class ExitStatus` of `src/sliver/app/cli.py`. -/
inductive ExitStatus
  | SUCCESS
  | BACKEND_ERROR
  | INVALID_ARGS
  | INCONCLUSIVE
  | PARSING_ERROR
  | FAILED
  | TIMEOUT
  | NOT_FOUND
  | KILLED
deriving DecidableEq, Repr

/-- The numeric exit codes of `ExitStatus`. -/
def ExitStatus.code : ExitStatus → Nat
  | .SUCCESS => 0
  | .BACKEND_ERROR => 1
  | .INVALID_ARGS => 2
  | .INCONCLUSIVE => 5
  | .PARSING_ERROR => 6
  | .FAILED => 10
  | .TIMEOUT => 124
  | .NOT_FOUND => 127
  | .KILLED => 130

/-- Modelled from the spec: the error-kind taxonomy of spec section 7
(`ParseError`, `InvalidArgs`, `BackendError`, `Timeout`, `Failed`,
`Inconclusive`, `ConcretizationFailed`, `Killed`).  The code's
`ExitStatus` enumeration (above, from `src/sliver/app/cli.py`) has no
member corresponding to `ConcretizationFailed`. -/
inductive SpecErrorKind
  | parseError
  | invalidArgs
  | backendError
  | timeout
  | failed
  | inconclusive
  | concretizationFailed
  | killed
deriving DecidableEq, Repr

/-- Modelled from the spec: which spec-section-7 error kind each
`ExitStatus` member surfaces as (`SUCCESS` and `NOT_FOUND` surface no
error kind). -/
def specKindOf : ExitStatus → Option SpecErrorKind
  | .PARSING_ERROR => some .parseError
  | .INVALID_ARGS => some .invalidArgs
  | .BACKEND_ERROR => some .backendError
  | .TIMEOUT => some .timeout
  | .FAILED => some .failed
  | .INCONCLUSIVE => some .inconclusive
  | .KILLED => some .killed
  | .SUCCESS => none
  | .NOT_FOUND => none

/-! ## Property rewriter (src/sliver/atlas/atlas.py) -/

/-- A literal value of a labsparse `Literal` node.  Quantifier
elimination stores the synthesized string labels in `Attr.VALUE`, so a
value is an integer or a string. -/
inductive PLit
  | intL (n : Int)
  | strL (s : String)
deriving DecidableEq, Repr

/-- The labsparse property AST nodes that `remove_quant` dispatches on:
`Literal`, `Ref` (with its optional `of` node), `RefExt`, `Expr`,
`Builtin`, `Comparison`, `QFormula`. -/
inductive PNode
  | lit (v : PLit)
  | ref (name : String) (of : Option PNode)
  | refExt (name : String)
  | expr (op : String) (ops : List PNode)
  | builtin (fn : String) (ops : List PNode)
  | comparison (op : String) (ops : List PNode)
  | qformula (qvars : List (String × String × String)) (cond : PNode)

/-- The `of_matches(node, what)` helper of `remove_quant`:
`node(NodeType.REF) and node[Attr.OF](NodeType.REF) and
node[Attr.OF][Attr.NAME] == what`.  On a `Ref` without an `of` node the
Python expression raises (`None` is not callable), modelled as an
error. -/
def ofMatches (node : PNode) (what : String) : Except String Bool :=
  match node with
  | PNode.ref _ of =>
    match of with
    | none => Except.error "TypeError: 'NoneType' object is not callable"
    | some (PNode.ref oname _) => Except.ok (oname = what)
    | some _ => Except.ok false
  | _ => Except.ok false

mutual

/-- The `replace_with(f, agent)` closure of `remove_quant`, for the
default `fn = replace_with_string` (which builds the label
`f"{f.var}_{agent}"` from the ref's name).  labsparse nodes are mutable,
and `replace_with` rewrites `Expr`/`Builtin`/`Comparison` nodes in
place, so the embedding returns the pair
(returned node, state of the argument node after the call).
A `Ref` whose `of` is the quantified variable becomes a fresh synthetic
`Literal` carrying the string label; any other `Ref` falls into the
dead branch `elif of_matches("id")`, which calls the two-argument
`of_matches` with one argument and therefore raises `TypeError`. -/
def replaceWith (var : String) (agent : Int) :
    PNode → Except String (PNode × PNode)
  | PNode.ref name of => do
    let b ← ofMatches (PNode.ref name of) var
    if b then
      Except.ok (PNode.lit (PLit.strL (name ++ "_" ++ toString agent)),
                 PNode.ref name of)
    else
      Except.error
        "TypeError: of_matches() missing 1 required positional argument: 'what'"
  | PNode.expr op ops => do
    let rs ← replaceWithList var agent ops
    Except.ok (PNode.expr op rs, PNode.expr op rs)
  | PNode.builtin fn ops => do
    let rs ← replaceWithList var agent ops
    Except.ok (PNode.builtin fn rs, PNode.builtin fn rs)
  | PNode.comparison op ops => do
    let rs ← replaceWithList var agent ops
    Except.ok (PNode.comparison op rs, PNode.comparison op rs)
  | f => Except.ok (f, f)

/-- `[replace_with(x, agent) for x in f[Attr.OPERANDS]]`. -/
def replaceWithList (var : String) (agent : Int) :
    List PNode → Except String (List PNode)
  | [] => Except.ok []
  | x :: xs => do
    let (r, _) ← replaceWith var agent x
    let rest ← replaceWithList var agent xs
    Except.ok (r :: rest)

end

/-- `map_quant`: `forall ↦ and`, `exists ↦ or` (`KeyError` otherwise). -/
def mapQuant (q : String) : Option String :=
  if q = "forall" then some "and" else if q = "exists" then some "or" else none

/-- `[replace_with(formula, a) for a in agents]`: the *same* (mutable)
formula object is passed for every agent, so each call operates on the
node as left behind by the previous call. -/
def removeQuantCopies (var : String) (formula : PNode) :
    List Int → Except String (List PNode)
  | [] => Except.ok []
  | a :: rest => do
    let (r, f2) ← replaceWith var a formula
    let rs ← removeQuantCopies var f2 rest
    Except.ok (r :: rs)

/-- `remove_quant(formula, quant, var, agents)`: a synthetic `Expr` node
named `and`/`or` whose operands are the per-agent rewrites.  (The
function body also collects `new_vars`, but it returns only the new
node.) -/
def removeQuant (formula : PNode) (quant : String) (var : String)
    (agents : List Int) : Except String PNode := do
  match mapQuant quant with
  | none => Except.error "KeyError"
  | some opName => do
    let ops ← removeQuantCopies var formula agents
    Except.ok (PNode.expr opName ops)

/-! ## Value analysis (src/sliver/analysis/value_analysis.py) -/

/-- The labsparse expression nodes dispatched on by `eval_expr`:
`Literal`, `Ref`, `RefExt`, `Builtin`, `Expr`, `Comparison`, `If`,
`QFormula`, `Pick`; `nodeOther` stands for any other node shape, which
falls into the final `else` (`NotImplementedError`). -/
inductive ENode
  | lit (v : Int)
  | ref (name : String)
  | refExt (name : String)
  | builtin (fn : String) (ops : List ENode)
  | expr (op : String) (ops : List ENode)
  | comparison (op : String) (ops : List ENode)
  | ifNode (c t e : ENode)
  | qformula
  | pick (typ : Option String)
  | nodeOther (kind : String)

/-- An abstract state: one Stripes value per field of the `State`
namedtuple (association list in field order). -/
def VState := List (String × Finset Interval)

instance : DecidableEq VState :=
  inferInstanceAs (DecidableEq (List (String × Finset Interval)))

/-- `getattr(s, name)` / `name in s._fields`. -/
def lookupV (s : VState) (n : String) : Option (Finset Interval) :=
  (s.find? (fun p => p.1 = n)).map (fun p => p.2)

/-- The names of the binary operator table `OPS` of `eval_expr`. -/
def opsNames : List String :=
  ["+", "-", "*", "/", "%", "min", "max", "and", "or", "nondet-from-range"]

/-- The names of the comparison table `CMP` of `eval_expr`. -/
def cmpNames : List String := [">", "<", ">=", "<=", "=", "!="]

/-- One application of an `OPS` entry over the Stripes domain.  `/` is
`x // y`, which `Stripes` does not implement (Python `TypeError`); `%`
can raise `ZeroDivisionError`; `or` and `nondet-from-range` can raise on
degenerate operands. -/
def applyOp (op : String) (x y : Finset Interval) :
    Except String (Finset Interval) :=
  match op with
  | "+" => Except.ok (Stripes.add x y)
  | "-" => Except.ok (Stripes.sub x y)
  | "*" => Except.ok (Stripes.mul x y)
  | "/" => Except.error "TypeError: unsupported operand type(s) for //: 'Stripes'"
  | "%" =>
    match Stripes.modS x y with
    | some r => Except.ok r
    | none => Except.error "ZeroDivisionError"
  | "min" => Except.ok (Stripes.Minop x y)
  | "max" => Except.ok (Stripes.Maxop x y)
  | "and" => Except.ok (Stripes.andOp x y)
  | "or" =>
    match Stripes.orOp x y with
    | some r => Except.ok r
    | none => Except.error "ValueError: empty stripes"
  | "nondet-from-range" =>
    match Stripes.rangeOp x y with
    | some r => Except.ok r
    | none => Except.error "ValueError: empty range"
  | _ => Except.error ("KeyError: " ++ op)

/-- One application of a `CMP` entry. -/
def applyCmp (op : String) (x y : Finset Interval) :
    Except String (Finset Interval) :=
  match op with
  | ">" =>
    match Stripes.gt x y with
    | some r => Except.ok r
    | none => Except.error "ValueError: empty stripes"
  | "<" =>
    match Stripes.lt x y with
    | some r => Except.ok r
    | none => Except.error "ValueError: empty stripes"
  | ">=" =>
    match Stripes.ge x y with
    | some r => Except.ok r
    | none => Except.error "ValueError: empty stripes"
  | "<=" =>
    match Stripes.le x y with
    | some r => Except.ok r
    | none => Except.error "ValueError: empty stripes"
  | "=" => Except.ok (Stripes.equality x y)
  | "!=" => Except.ok (Stripes.inv (Stripes.equality x y))
  | _ => Except.error ("KeyError: " ++ op)

mutual

/-- `eval_expr(expr, s, externs, info)` over the `Stripes` domain,
following the source dispatch order (note the Python operator precedence
in `expr(NodeType.EXPR) or expr(NodeType.BUILTIN) and expr[Attr.NAME] in
OPS`: *any* `Expr` node enters that branch, and an unknown operator name
only fails later with a `KeyError`).  The `UNARY_OPS` entry `unary-not`
(whose Python body `not x` escapes the Stripes domain by truthiness) is
outside the modelled fragment.  Exceptions become `Except.error`. -/
def evalExpr (s : VState) (externs : List (String × Finset Interval))
    (kinds : List AgentKind) : ENode → Except String (Finset Interval)
  | ENode.lit v => Except.ok (Stripes.abstract [v])
  | ENode.ref name =>
    match lookupV s name with
    | some x => Except.ok x
    | none =>
      match (externs.find? (fun p => p.1 = name)).map (fun p => p.2) with
      | some x => Except.ok x
      | none => Except.error ("KeyError: " ++ name)
  | ENode.refExt name =>
    match (externs.find? (fun p => p.1 = name)).map (fun p => p.2) with
    | some x => Except.ok x
    | none => Except.error ("KeyError: " ++ name)
  | ENode.builtin fn ops =>
    if fn = "unary-minus" ∨ fn = "abs" then
      match ops with
      | [] => Except.error "IndexError: list index out of range"
      | o :: _ => do
        let v ← evalExpr s externs kinds o
        if fn = "unary-minus" then Except.ok (Stripes.neg v)
        else Except.ok (Stripes.sabs v)
    else if fn ∈ opsNames then do
      let rs ← evalExprList s externs kinds ops
      match rs with
      | [] => Except.error "TypeError: reduce() of empty iterable"
      | x :: xs => xs.foldlM (applyOp fn) x
    else Except.error "NotImplementedError"
  | ENode.expr op ops => do
    let rs ← evalExprList s externs kinds ops
    if op ∈ opsNames then
      match rs with
      | [] => Except.error "TypeError: reduce() of empty iterable"
      | x :: xs => xs.foldlM (applyOp op) x
    else Except.error ("KeyError: " ++ op)
  | ENode.comparison op ops =>
    if op ∈ cmpNames then do
      let rs ← evalExprList s externs kinds ops
      match rs with
      | [] => Except.error "TypeError: reduce() of empty iterable"
      | x :: xs => xs.foldlM (applyCmp op) x
    else Except.error "NotImplementedError"
  | ENode.ifNode c t e => do
    let cv ← evalExpr s externs kinds c
    if Stripes.memS 1 cv ∧ Stripes.memS 0 cv then do
      let tv ← evalExpr s externs kinds t
      let ev ← evalExpr s externs kinds e
      Except.ok (Stripes.orJoin tv ev)
    else if Stripes.memS 1 cv then evalExpr s externs kinds t
    else if Stripes.memS 0 cv then evalExpr s externs kinds e
    else Except.error "ValueError"
  | ENode.qformula => Except.ok Stripes.MAYBE
  | ENode.pick typ =>
    match typ with
    | none =>
      match lookupV s "id" with
      | some x => Except.ok x
      | none => Except.error "AttributeError: id"
    | some t =>
      match rangeOfKind kinds t with
      | some r => Except.ok (Stripes.abstract (pyRange r.1 r.2))
      | none => Except.error ("KeyError: " ++ t)
  | ENode.nodeOther kind => Except.error ("NotImplementedError: " ++ kind)

/-- `[recurse(e) for e in expr[Attr.OPERANDS]]`. -/
def evalExprList (s : VState) (externs : List (String × Finset Interval))
    (kinds : List AgentKind) : List ENode → Except String (List (Finset Interval))
  | [] => Except.ok []
  | x :: xs => do
    let v ← evalExpr s externs kinds x
    let rest ← evalExprList s externs kinds xs
    Except.ok (v :: rest)

end

/-- An `Assign` node: parallel left-hand names and right-hand
expressions. -/
def VAssign := List (String × ENode)

/-- Update one field of the state dict. -/
def setVar (s : VState) (n : String) (v : Finset Interval) : VState :=
  s.map (fun p => if p.1 = n then (n, v) else p)

/-- `apply_assignment(asgn, s0, …)` in the unguarded case (an
assignment absent from the guard map; `apply_guard` then returns `s0`
unchanged): every right-hand side is evaluated under the *original*
state `s`, the results update a copy. -/
def applyAssignment (asgn : VAssign) (s : VState)
    (externs : List (String × Finset Interval)) (kinds : List AgentKind) :
    Except String VState :=
  asgn.foldlM (fun s1 pr => do
    let v ← evalExpr s externs kinds pr.2
    pure (setVar s1 pr.1 v)) s

/-- `merge(s0, s1, State)` for states over the same fields: pointwise
lattice join. -/
def mergeStates (s0 s1 : VState) : VState :=
  s0.map (fun p =>
    match lookupV s1 p.1 with
    | some w => (p.1, Stripes.orJoin p.2 w)
    | none => p)

/-- The bounded chaos-fixpoint loop of `value_analysis` (the inner
`loop(bound, guard_map, s0)` with an empty guard map and no blocks):
each iteration applies every assignment to every frontier state; an
exception in any of these applications is re-raised by `f.result()` and
propagates out of the loop.  On `new_states <= visited_states` the loop
breaks with `fixpoint=True`; when the bound is exhausted `fixpoint`
stays `False`.  In both cases `visited_states |= frontier` runs after
the loop. -/
def vaLoop (assignments : List VAssign)
    (externs : List (String × Finset Interval)) (kinds : List AgentKind) :
    Nat → List VState → List VState → Except String (List VState × Bool)
  | 0, visited, frontier => Except.ok (visited ++ frontier, false)
  | n + 1, visited, frontier => do
    let pairs := assignments.flatMap (fun a => frontier.map (fun s => (a, s)))
    let news ← pairs.mapM (fun pr => applyAssignment pr.1 pr.2 externs kinds)
    if news.all (fun s => visited.contains s) then
      Except.ok (visited ++ frontier, true)
    else
      vaLoop assignments externs kinds n (visited ++ frontier) news

/-- `value_analysis` (restricted to assignments, no blocks or guards):
run the chaos loop with bound 20 from `{s0}`, merge all visited states,
normalize each field with `join_adjacent`, and return the merged state
with the fixpoint flag.  There is no exception handler anywhere on this
path: any evaluation error propagates to the caller. -/
def valueAnalysisRun (assignments : List VAssign)
    (externs : List (String × Finset Interval)) (kinds : List AgentKind)
    (s0 : VState) : Except String (VState × Bool) := do
  let (states, fix) ← vaLoop assignments externs kinds 20 [] [s0]
  match states with
  | [] => Except.error "TypeError: reduce() of empty iterable"
  | s :: rest =>
    let merged := rest.foldl mergeStates s
    Except.ok (merged.map (fun p => (p.1, Stripes.join_adjacent p.2)), fix)

/-- The loop configurations `(fuel, visited, frontier)` that the chaos
loop of `value_analysis` steps through, mirroring the recursion of
`vaLoop`: one `step` per completed iteration, i.e. one in which every
assignment application succeeded and the fixpoint break was not taken,
handing `(visited ++ frontier, news)` to the next iteration. -/
inductive VaReaches (assignments : List VAssign)
    (externs : List (String × Finset Interval)) (kinds : List AgentKind) :
    Nat → List VState → List VState → Nat → List VState → List VState → Prop
  | refl (n : Nat) (vis fr : List VState) :
      VaReaches assignments externs kinds n vis fr n vis fr
  | step (n : Nat) (vis fr news : List VState) (m : Nat)
      (vis2 fr2 : List VState) :
      ((assignments.flatMap (fun a => fr.map (fun s => (a, s)))).mapM
        (fun pr => applyAssignment pr.1 pr.2 externs kinds)) =
        Except.ok news →
      news.all (fun s => vis.contains s) = false →
      VaReaches assignments externs kinds n (vis ++ fr) news m vis2 fr2 →
      VaReaches assignments externs kinds (n + 1) vis fr m vis2 fr2

/-! ## CADP trace translation (src/sliver/app/cex.py, `translate_cadp`) -/

/-- A parsed object of the LNT action grammar (`OBJ`). -/
inductive CObj
  | num (n : Int)
  | boolO (b : Bool)
  | record (name : String) (args : List CObj)

/-- A token of a parsed `STEP` line (pyparsing token list entries). -/
inductive CTok
  | nameT (s : String)
  | numT (n : Int)
  | boolT (b : Bool)
  | strT (s : String)
  | groupT (o : CObj)

/-- The whitespace characters set by
`ParserElement.setDefaultWhitespaceChars(' \t\n\x01\x02')`. -/
def isWsLNT (c : Char) : Bool :=
  c = ' ' || c = '\t' || c = '\n' || c = '\x01' || c = '\x02'

/-- Skip leading whitespace (pyparsing skips before every token). -/
def skipWs (l : List Char) : List Char := l.dropWhile isWsLNT

/-- `Word(alphanums)`: a maximal nonempty alphanumeric run. -/
def parseName (l : List Char) : Option (String × List Char) :=
  let l := skipWs l
  let tk := l.takeWhile Char.isAlphanum
  let rest := l.dropWhile Char.isAlphanum
  if tk.isEmpty then none else some (String.mk tk, rest)

/-- `pyparsing_common.number` restricted to signed integers (the claims
never feed it a float). -/
def parseNumber (l : List Char) : Option (Int × List Char) :=
  let l := skipWs l
  let (sign, l2) : Int × List Char :=
    match l with
    | '-' :: rest => (-1, rest)
    | '+' :: rest => (1, rest)
    | _ => (1, l)
  let ds := l2.takeWhile Char.isDigit
  let rest := l2.dropWhile Char.isDigit
  if ds.isEmpty then none
  else some (sign * (digitsVal ds : Int), rest)

/-- `Keyword(kw)`: the keyword followed by a non-identifier character
(pyparsing identifier chars are alphanumerics plus `_` and `$`). -/
def parseKeyword (kw : String) (l : List Char) : Option (List Char) :=
  let l := skipWs l
  if kw.toList.isPrefixOf l then
    let rest := l.drop kw.toList.length
    match rest with
    | [] => some []
    | c :: _ => if c.isAlphanum || c = '_' || c = '$' then none else some rest
  else none

/-- `BOOLEAN = Keyword("TRUE") | Keyword("FALSE")` with `replaceWith`. -/
def parseBool (l : List Char) : Option (Bool × List Char) :=
  match parseKeyword "TRUE" l with
  | some rest => some (true, rest)
  | none =>
    match parseKeyword "FALSE" l with
    | some rest => some (false, rest)
    | none => none

/-- `dblQuotedString` with `removeQuotes` (no escape handling; the
claims only exercise plain contents). -/
def parseQuoted (l : List Char) : Option (String × List Char) :=
  match skipWs l with
  | '"' :: rest =>
    let body := rest.takeWhile (fun c => c ≠ '"')
    match rest.dropWhile (fun c => c ≠ '"') with
    | '"' :: rest2 => some (String.mk body, rest2)
    | _ => none
  | _ => none

/-- Consume one expected character (after whitespace). -/
def parseChar (c : Char) (l : List Char) : Option (List Char) :=
  match skipWs l with
  | c2 :: rest => if c2 = c then some rest else none
  | [] => none

mutual

/-- `OBJ = ppc.number() | BOOLEAN | Group(RECORD)` (a `MatchFirst`). -/
def parseObj : Nat → List Char → Option (CObj × List Char)
  | 0, _ => none
  | fuel + 1, l =>
    match parseNumber l with
    | some (v, rest) => some (CObj.num v, rest)
    | none =>
      match parseBool l with
      | some (b, rest) => some (CObj.boolO b, rest)
      | none => parseRecord fuel l

/-- `RECORD = NAME + LPAR + delimitedList(OBJ) + RPAR`. -/
def parseRecord : Nat → List Char → Option (CObj × List Char)
  | 0, _ => none
  | fuel + 1, l => do
    let (name, r1) ← parseName l
    let r2 ← parseChar '(' r1
    let (first, r3) ← parseObj fuel r2
    let (args, r4) ← parseObjTail fuel r3 [first]
    let r5 ← parseChar ')' r4
    some (CObj.record name args, r5)

/-- The `, OBJ` tail of `delimitedList(OBJ)`. -/
def parseObjTail : Nat → List Char → List CObj → Option (List CObj × List Char)
  | 0, _, _ => none
  | fuel + 1, l, acc =>
    match parseChar ',' l with
    | none => some (acc, l)
    | some r1 =>
      match parseObj fuel r1 with
      | none => none
      | some (o, r2) => parseObjTail fuel r2 (acc ++ [o])

end

/-- `ZeroOrMore(Suppress("!") + OBJ)`: collect `! OBJ` groups; when the
inner `And` fails the position is reset to before the `!` and the
repetition stops. -/
def parseBangObjs : Nat → List Char → List CObj → List CObj × List Char
  | 0, l, acc => (acc, l)
  | fuel + 1, l, acc =>
    match parseChar '!' l with
    | none => (acc, l)
    | some r1 =>
      match parseObj (r1.length + 1) r1 with
      | none => (acc, l)
      | some (o, r2) => parseBangObjs fuel r2 (acc ++ [o])

/-- A parsed object as a pyparsing result token. -/
def objTok : CObj → CTok
  | CObj.num n => CTok.numT n
  | CObj.boolO b => CTok.boolT b
  | o => CTok.groupT o

/-- `STEP = ppc.number() | ASGN | MONITOR` parsed with
`parseString(l, parseAll=True)`.  `|` is pyparsing `MatchFirst`: the
first alternative that matches at position 0 is *committed*, and the
subsequent end-of-string check cannot backtrack into another
alternative.  `none` models the raised `ParseException`. -/
def parseStep (s : String) : Option (List CTok) :=
  let l := s.toList
  match parseNumber l with
  | some (v, rest) =>
    if (skipWs rest).isEmpty then some [CTok.numT v] else none
  | none =>
    match parseName l with
    | some (name, r1) =>
      -- ASGN = NAME + ZeroOrMore(Suppress("!") + OBJ)
      let (objs, r2) := parseBangObjs (r1.length + 1) r1 []
      if (skipWs r2).isEmpty then some (CTok.nameT name :: objs.map objTok)
      else none
    | none =>
      -- MONITOR = Keyword("MONITOR") + Suppress("!") + (BOOLEAN | QUOTES)
      match parseKeyword "MONITOR" l with
      | none => none
      | some r1 =>
        match parseChar '!' r1 with
        | none => none
        | some r2 =>
          match parseBool r2 with
          | some (b, r3) =>
            if (skipWs r3).isEmpty then some [CTok.nameT "MONITOR", CTok.boolT b]
            else none
          | none =>
            match parseQuoted r2 with
            | some (q, r3) =>
              if (skipWs r3).isEmpty then
                some [CTok.nameT "MONITOR", CTok.strT q]
              else none
            | none => none

/-- Python `token == "some string"` for a result token. -/
def tokEqStr (t : CTok) (s : String) : Bool :=
  match t with
  | CTok.nameT x => x = s
  | CTok.strT x => x = s
  | _ => false

/-- Python truthiness of a result token (`bool`, `int`, `str` follow
their usual truthiness; a `Group` is always truthy). -/
def tokTruthy : CTok → Bool
  | CTok.boolT b => b
  | CTok.numT n => n ≠ 0
  | CTok.nameT s => s ≠ ""
  | CTok.strT s => s ≠ ""
  | CTok.groupT _ => true

/-- `True` iff `pat` occurs as a substring (Python `pat in l`). -/
def listContainsSub (pat : List Char) : List Char → Bool
  | [] => pat.isEmpty
  | c :: rest => pat.isPrefixOf (c :: rest) || listContainsSub pat rest

/-- Python `pat in s` on strings. -/
def strIn (pat s : String) : Bool := listContainsSub pat.toList s.toList

/-- What the body of the `for l in lines` loop of `translate_cadp`
yields for one action line. -/
inductive CadpOut
  | skipped
  | rendered (s : String)
  | storeE (toks : List CTok)
  | storeAttr (toks : List CTok)
  | storeL (toks : List CTok)
  | unparsedStep (toks : List CTok)

/-- One iteration of the `for l in lines` loop of `translate_cadp`
(the rendering of the three store branches, which needs `info`, is kept
symbolic in `storeE`/`storeAttr`/`storeL`).  `Except.error` models an
exception escaping the generator. -/
def processLine (l : String) : Except String CadpOut :=
  if strIn "invisible transition" l then Except.ok CadpOut.skipped
  else if strIn "<deadlock>" l then Except.ok (CadpOut.rendered l)
  else
    match parseStep l with
    | none => Except.error "ParseException"
    | some step =>
      match step.head? with
      | none => Except.error "IndexError: list index out of range"
      | some h =>
        if tokEqStr h "ENDINIT" then
          Except.ok (CadpOut.rendered "<end initialization>\n")
        else if tokEqStr h "MONITOR" then
          match step.get? 1 with
          | none => Except.error "IndexError: list index out of range"
          | some t1 =>
            if tokEqStr t1 "deadlock" then
              Except.ok (CadpOut.rendered "<deadlock>\n")
            else if tokTruthy t1 then
              Except.ok (CadpOut.rendered "<property satisfied>\n")
            else
              Except.ok (CadpOut.rendered "<property violated>\n")
        else if tokEqStr h "E" then Except.ok (CadpOut.storeE step)
        else if tokEqStr h "ATTR" then Except.ok (CadpOut.storeAttr step)
        else if tokEqStr h "L" then Except.ok (CadpOut.storeL step)
        else Except.ok (CadpOut.unparsedStep step)

/-- The whole `translate_cadp` loop over the already-extracted action
lines: the `<initialization>` header followed by the per-line outputs;
an exception on any line aborts the generator. -/
def translateCadpLines (lines : List String) : Except String (List CadpOut) := do
  let outs ← lines.mapM processLine
  Except.ok (CadpOut.rendered "<initialization>\n" :: outs)

/-- The solving part of `Concretizer.get_concretization`: run the
retraction loop; on sat extract the model (abstracted as `modelOf`,
applied to the surviving assumptions); otherwise raise
`SliverError(ExitStatus.BACKEND_ERROR, "Could not find a valid
concretization.")`. -/
def getConcretization {M : Type} (check : List String → CheckResult)
    (modelOf : List String → M) (softs : List String) :
    Except (ExitStatus × String) M :=
  match retractLoop check softs with
  | (CheckResult.sat, remaining) => Except.ok (modelOf remaining)
  | _ => Except.error
      (ExitStatus.BACKEND_ERROR, "Could not find a valid concretization.")

/-! ## Theorems -/

/-- C1: (code bug) quantifier elimination does not produce
`p(0) ∧ p(1) ∧ p(2)`.  `remove_quant` passes the same mutable formula
object to `replace_with` for every agent id, so after the first agent's
pass no `Ref` nodes remain and all `hi - lo` conjuncts alias the copy
rewritten for the *first* agent id; moreover a reference `id of x` is
caught by the `of_matches(f, var)` branch and becomes the string label
`id_<tid>` of the first agent instead of the literal agent id.  The two
conjuncts evaluate `remove_quant` on `forall T x, (v of x) > 0` and
`forall T x, (id of x) = 1` for the id range `[0, 3)`. -/
theorem C1_remove_quant_aliases_copies :
    removeQuant
      (PNode.comparison ">"
        [PNode.ref "v" (some (PNode.ref "x" none)), PNode.lit (PLit.intL 0)])
      "forall" "x" [0, 1, 2]
      = Except.ok (PNode.expr "and"
          [PNode.comparison ">"
            [PNode.lit (PLit.strL "v_0"), PNode.lit (PLit.intL 0)],
           PNode.comparison ">"
            [PNode.lit (PLit.strL "v_0"), PNode.lit (PLit.intL 0)],
           PNode.comparison ">"
            [PNode.lit (PLit.strL "v_0"), PNode.lit (PLit.intL 0)]]) ∧
    removeQuant
      (PNode.comparison "="
        [PNode.ref "id" (some (PNode.ref "x" none)), PNode.lit (PLit.intL 1)])
      "forall" "x" [0, 1, 2]
      = Except.ok (PNode.expr "and"
          [PNode.comparison "="
            [PNode.lit (PLit.strL "id_0"), PNode.lit (PLit.intL 1)],
           PNode.comparison "="
            [PNode.lit (PLit.strL "id_0"), PNode.lit (PLit.intL 1)],
           PNode.comparison "="
            [PNode.lit (PLit.strL "id_0"), PNode.lit (PLit.intL 1)]]) :=
  ⟨rfl, rfl⟩

/-- C2: (code bug) on a system with one agent owning interface variable
`x : 0..3` (cell `I[0][0]`) and environment variable `e : 0..3` (cell
`E[0]`), the soft constraint introduced for the environment cell
constrains `I[0][0]` - the leftover `attr` of the interface loop - and
not `E[0]`: its left-hand side is `CVar.I 0 0`. -/
theorem C2_env_soft_constraint_hits_interface_cell :
    addSoftConstraints
        ⟨[[⟨0, "x", 1, "i", "0..3", false⟩]], [⟨0, "e", 1, "e", "0..3", false⟩]⟩
        (fun _ _ => 1)
      = Except.ok
          [⟨"i_0_0_%%soft%%", CVar.I 0 0, 1⟩,
           ⟨"e_0_%%soft%%", CVar.I 0 0, 1⟩] ∧
    (⟨"e_0_%%soft%%", CVar.I 0 0, 1⟩ : SoftC).lhs = CVar.I 0 0 :=
  ⟨rfl, rfl⟩

/-- C3: with fair scheduling and no stigmergic variables, any
assignment satisfying the scheduler constraints has `sched[0] = 0`,
obeys the round-robin recurrence, and therefore equals the round-robin
sequence `sched[i] = i mod N`. -/
theorem C3_fair_sched_is_round_robin :
    ∀ (steps : Nat) (N : Int) (sched : Nat → Int), 0 < N →
      schedConstraintsHold steps N true 0 sched →
      sched 0 = 0 ∧
      (∀ i < steps, 1 ≤ i → sched i = (sched (i - 1) + 1) % N) ∧
      (∀ i < steps, sched i = (i : Int) % N) := by
  intro steps N sched _hN h
  obtain ⟨-, hfair⟩ := h
  obtain ⟨h0, hrec⟩ := hfair ⟨rfl, rfl⟩
  refine ⟨h0, hrec, ?_⟩
  intro i hi
  induction i with
  | zero => simpa using h0
  | succ k ih =>
    have hk : k < steps := Nat.lt_of_succ_lt hi
    have hstep := hrec (k + 1) hi (by omega)
    rw [hstep]
    simp only [Nat.add_sub_cancel]
    rw [ih hk, Int.emod_add_emod]
    push_cast
    ring_nf

/-- Witness for C3 at `steps = 3`, `N = 2`, `sched i = i mod 2`. -/
theorem C3_fair_sched_is_round_robin_witness :
    ((0 : Nat) : Int) % 2 = 0 ∧
    (∀ i < 3, 1 ≤ i →
      ((i : Nat) : Int) % 2 = (((i - 1 : Nat) : Int) % 2 + 1) % 2) ∧
    (∀ i < 3, ((i : Nat) : Int) % 2 = ((i : Nat) : Int) % 2) := by
  simpa using
    C3_fair_sched_is_round_robin 3 2 (fun i => ((i : Int)) % 2) (by decide)
      (by decide)

/-- C9: (code bug) the actions `MONITOR !FALSE` and `MONITOR !TRUE` are
rendered as `<property violated>` and `<property satisfied>`, but the
action `MONITOR !"deadlock"` is *not* rendered as `<deadlock>`: the
`STEP` grammar is a pyparsing `MatchFirst`, its `ASGN` alternative
already matches the name `MONITOR` (its `ZeroOrMore` part stops before
`!"deadlock"`, whose quoted string no `OBJ` alternative accepts), and
the committed partial match then fails the `parseAll=True` end-of-input
check, raising a `ParseException` - so the `MONITOR !<quoted>` branch of
the translator is unreachable. -/
theorem C9_monitor_rendering :
    processLine "MONITOR !FALSE" = Except.ok (CadpOut.rendered "<property violated>\n") ∧
    processLine "MONITOR !TRUE" = Except.ok (CadpOut.rendered "<property satisfied>\n") ∧
    processLine "MONITOR !\"deadlock\"" = Except.error "ParseException" :=
  ⟨rfl, rfl, rfl⟩

/-- If every in-range cell yields no constraint, `softLoop` returns the
empty list. -/
theorem softLoop_all_none (f : Nat → CVar → Except String (Option SoftC)) :
    ∀ (cells : List CVar) (i : Nat),
      (∀ j attr, i ≤ j → j < i + cells.length → f j attr = Except.ok Option.none) →
      softLoop f i cells = Except.ok [] := by
  intro cells
  induction cells with
  | nil => intro i _; rfl
  | cons c rest ih =>
    intro i h
    show softLoop f i (c :: rest) = Except.ok []
    rw [softLoop, h i c (le_refl i) (by simp), ih (i + 1) ?_]
    · rfl
    · intro j attr h1 h2
      exact h j attr (by omega) (by simp at h2 ⊢; omega)

/-- `getVar` over the one-variable store `[v]` answers `v` for every
in-range flat index. -/
theorem getVar_single (v : PyVariable) (i : Nat) (hi : i < v.size) :
    getVar [v] i = some v := by
  unfold getVar
  simp only [sortByIndex, insertByIndex]
  rw [if_pos]
  · unfold getVar.go
    rw [if_pos hi]
  · simpa using hi

/-- C10: a variable whose initializer text is exactly `undef` has the
one-element value set `[-32767]` for every agent id; consequently the
concretizer's soft-constraint pass skips it (adding such an environment
variable to a system leaves `_add_soft_constraints` unchanged). -/
theorem C10_undef_values :
    ∀ (v : PyVariable) (id : Int), v.init = "undef" →
      pyValues v id = some [-32767] ∧
      (pyValues v id).map List.length = some 1 ∧
      (∀ (agents : List (List PyVariable)) (rnd : PyVariable → Int → Int),
        1 ≤ v.size →
        addSoftConstraints ⟨agents, [v]⟩ rnd =
          addSoftConstraints ⟨agents, []⟩ rnd) := by
  intro v id h
  obtain ⟨idx, nm, sz, st, ini, ar⟩ := v
  dsimp only at h
  subst h
  refine ⟨rfl, rfl, ?_⟩
  intro agents rnd hsz
  have hlen : (envCells [⟨idx, nm, sz, st, "undef", ar⟩]).length ≤ sz := by
    unfold envCells
    cases ar <;> simp [hsz]
  have henv : ∀ (la : Option CVar) (lt : Option Nat),
      envLoop [⟨idx, nm, sz, st, "undef", ar⟩]
        (envCells [⟨idx, nm, sz, st, "undef", ar⟩]) la lt rnd = Except.ok [] := by
    intro la lt
    apply softLoop_all_none
    intro j attr _ hj
    have hjs : j < sz := by omega
    unfold softForCell
    rw [getVar_single _ _ (by simpa using hjs)]
    rfl
  show (ifaceLoop agents rnd) >>= _ = (ifaceLoop agents rnd) >>= _
  congr 1
  funext t
  obtain ⟨s1, la, lt⟩ := t
  show (envLoop _ _ la lt rnd) >>= _ = (envLoop [] (envCells []) la lt rnd) >>= _
  rw [henv la lt]
  rfl

/-- Witness for C10 at a scalar `undef` environment variable. -/
theorem C10_undef_values_witness :
    pyValues ⟨0, "u", 1, "e", "undef", false⟩ 0 = some [-32767] ∧
    (pyValues ⟨0, "u", 1, "e", "undef", false⟩ 0).map List.length = some 1 ∧
    addSoftConstraints
        ⟨[[⟨0, "x", 1, "i", "0..3", false⟩]], [⟨0, "u", 1, "e", "undef", false⟩]⟩
        (fun _ _ => 1) =
      addSoftConstraints ⟨[[⟨0, "x", 1, "i", "0..3", false⟩]], []⟩
        (fun _ _ => 1) := by
  have h := C10_undef_values ⟨0, "u", 1, "e", "undef", false⟩ 0 rfl
  exact ⟨h.1, h.2.1, h.2.2 _ _ (by decide)⟩

/-- If some list element maps to an error, `mapM` returns an error. -/
theorem mapM_error_of_mem {α β : Type} (f : α → Except String β) :
    ∀ (l : List α), (∃ x ∈ l, ∃ e, f x = Except.error e) →
      ∃ e, l.mapM f = Except.error e := by
  intro l
  induction l with
  | nil => intro h; obtain ⟨x, hx, _⟩ := h; simp at hx
  | cons a l ih =>
    intro h
    rw [List.mapM_cons]
    obtain ⟨x, hx, e, he⟩ := h
    rcases List.mem_cons.mp hx with rfl | hmem
    · exact ⟨e, by rw [he]; rfl⟩
    · cases hfa : f a with
      | error e2 => exact ⟨e2, rfl⟩
      | ok v =>
        obtain ⟨e3, he3⟩ := ih ⟨x, hmem, e, he⟩
        exact ⟨e3, by rw [he3]; rfl⟩

/-- C7: (counterexample) on a behavior with the single assignment
`x ← <unsupported node>`, `value_analysis` does *not* return normally
with `fixpoint = false`: the `NotImplementedError` raised by `eval_expr`
propagates out (there is no `try`/`except` in `value_analysis` or in
`Esbmc.preprocess`). -/
theorem C7_unevaluable_expression_raises :
    valueAnalysisRun [[("x", ENode.nodeOther "guarded")]] [] []
        [("x", Stripes.abstract [0]), ("id", Stripes.abstract [0])]
      = Except.error "NotImplementedError: guarded" := rfl

/-- Running the chaos loop from a configuration equals running it from
any configuration the loop reaches from there. -/
theorem vaLoop_eq_of_reaches {assignments : List VAssign}
    {externs : List (String × Finset Interval)} {kinds : List AgentKind}
    {n : Nat} {vis fr : List VState} {m : Nat} {vis2 fr2 : List VState}
    (h : VaReaches assignments externs kinds n vis fr m vis2 fr2) :
    vaLoop assignments externs kinds n vis fr =
      vaLoop assignments externs kinds m vis2 fr2 := by
  induction h with
  | refl => rfl
  | step n vis fr news m vis2 fr2 hok hall hrest ih =>
    rw [← ih, vaLoop, hok]
    show (if news.all (fun s => vis.contains s) then
        Except.ok (vis ++ fr, true)
      else vaLoop assignments externs kinds n (vis ++ fr) news) =
      vaLoop assignments externs kinds n (vis ++ fr) news
    rw [hall]
    rfl

/-- C7 (amended): if at any iteration the chaos loop of
`value_analysis` reaches a frontier on which evaluating some assignment
raises (unsupported node shape, arithmetic error, …), the exception
propagates out of `value_analysis` to its caller: the analysis returns
an error, not an accumulated partial result. -/
theorem C7_error_propagates :
    ∀ (assignments : List VAssign) (externs : List (String × Finset Interval))
      (kinds : List AgentKind) (s0 : VState) (m : Nat) (vis fr : List VState),
      VaReaches assignments externs kinds 20 [] [s0] (m + 1) vis fr →
      (∃ a ∈ assignments, ∃ s ∈ fr, ∃ e,
        applyAssignment a s externs kinds = Except.error e) →
      ∃ e, valueAnalysisRun assignments externs kinds s0 = Except.error e := by
  intro assigns externs kinds s0 m vis fr hreach h
  have hpairs : ∃ pr ∈ assigns.flatMap (fun a => fr.map (fun s => (a, s))),
      ∃ e, applyAssignment pr.1 pr.2 externs kinds = Except.error e := by
    obtain ⟨a, ha, s, hs, e, he⟩ := h
    refine ⟨(a, s), ?_, e, he⟩
    simp only [List.mem_flatMap, List.mem_map]
    exact ⟨a, ha, s, hs, rfl⟩
  obtain ⟨e, hmapM⟩ :=
    mapM_error_of_mem (fun pr => applyAssignment pr.1 pr.2 externs kinds) _ hpairs
  refine ⟨e, ?_⟩
  unfold valueAnalysisRun
  have hloop : vaLoop assigns externs kinds 20 [] [s0] = Except.error e := by
    rw [vaLoop_eq_of_reaches hreach, vaLoop, hmapM]
    rfl
  rw [hloop]
  rfl

/-- Witness for C7 (amended): a division-by-zero that only appears on
the frontier of the *second* iteration (`x ← x − 1; y ← y mod x` from
`x = 1`: the first iteration succeeds and produces `x = 0`, the second
raises `ZeroDivisionError`), reached by one loop step. -/
theorem C7_error_propagates_witness :
    ∃ e, valueAnalysisRun
        [[("x", ENode.expr "-" [ENode.ref "x", ENode.lit 1]),
          ("y", ENode.expr "%" [ENode.ref "y", ENode.ref "x"])]] [] []
        [("x", Stripes.abstract [1]), ("y", Stripes.abstract [0])]
      = Except.error e :=
  C7_error_propagates _ _ _ _ 18
    [[("x", Stripes.abstract [1]), ("y", Stripes.abstract [0])]]
    [[("x", Stripes.abstract [0]), ("y", Stripes.abstract [0])]]
    (VaReaches.step 19 []
      [[("x", Stripes.abstract [1]), ("y", Stripes.abstract [0])]]
      [[("x", Stripes.abstract [0]), ("y", Stripes.abstract [0])]] 19
      [[("x", Stripes.abstract [1]), ("y", Stripes.abstract [0])]]
      [[("x", Stripes.abstract [0]), ("y", Stripes.abstract [0])]]
      (by rfl) (by rfl)
      (VaReaches.refl 19
        [[("x", Stripes.abstract [1]), ("y", Stripes.abstract [0])]]
        [[("x", Stripes.abstract [0]), ("y", Stripes.abstract [0])]]))
    ⟨[("x", ENode.expr "-" [ENode.ref "x", ENode.lit 1]),
      ("y", ENode.expr "%" [ENode.ref "y", ENode.ref "x"])], by simp,
     [("x", Stripes.abstract [0]), ("y", Stripes.abstract [0])], by simp,
     "ZeroDivisionError", by rfl⟩

/-- C8: (counterexample) when every solver call is unsatisfiable, the
retraction loop exhausts the soft assumptions and
`get_concretization` raises `SliverError(ExitStatus.BACKEND_ERROR,
"Could not find a valid concretization.")`: the surfaced kind is the
spec's `BackendError`, not a dedicated `ConcretizationFailed` kind
(which does not exist in `ExitStatus`). -/
theorem C8_exhausted_softs_raise_backend_error :
    getConcretization (fun _ => CheckResult.unsat) (fun l => l) ["b0"] =
      Except.error
        (ExitStatus.BACKEND_ERROR, "Could not find a valid concretization.") ∧
    specKindOf ExitStatus.BACKEND_ERROR = some SpecErrorKind.backendError ∧
    decide (SpecErrorKind.backendError = SpecErrorKind.concretizationFailed)
      = false :=
  ⟨rfl, rfl, rfl⟩

/-- C8 (amended): while the solver call is unsatisfiable the loop pops
one soft assumption off the tail of the (shuffled) soft list and
retries; when the problem stays unsatisfiable after all assumptions are
retracted, `get_concretization` raises a `SliverError` with
`ExitStatus.BACKEND_ERROR` ("Could not find a valid concretization."),
returning no model or text fragments. -/
theorem C8_retract_tail_and_fail (M : Type) :
    (∀ (check : List String → CheckResult) (softs : List String),
      softs ≠ [] → check softs ≠ CheckResult.sat →
      retractLoop check softs = retractLoop check softs.dropLast) ∧
    (∀ (check : List String → CheckResult) (modelOf : List String → M)
       (softs : List String),
      (∀ l, check l ≠ CheckResult.sat) →
      getConcretization check modelOf softs =
        Except.error
          (ExitStatus.BACKEND_ERROR, "Could not find a valid concretization.")) := by
  constructor
  · intro check softs hne hns
    unfold retractLoop
    obtain ⟨s, rest, hrev⟩ : ∃ s rest, softs.reverse = s :: rest := by
      cases hr : softs.reverse with
      | nil =>
        exfalso
        exact hne (by simpa using congrArg List.reverse hr)
      | cons s rest => exact ⟨s, rest, rfl⟩
    have hsofts : softs = rest.reverse ++ [s] := by
      have h2 := congrArg List.reverse hrev
      simpa [List.reverse_cons] using h2
    have hdrop : softs.dropLast = rest.reverse := by
      rw [hsofts]
      exact List.dropLast_concat
    rw [hrev, hdrop, List.reverse_reverse, retractRev]
    have hback : (s :: rest).reverse = softs := by
      rw [List.reverse_cons, ← hsofts]
    rw [hback]
    cases hc : check softs with
    | sat => exact absurd hc hns
    | unsat => rfl
    | unknown => rfl
  · intro check modelOf softs h
    have key : ∀ r : List String, (retractRev check r).1 ≠ CheckResult.sat := by
      intro r
      induction r with
      | nil => simpa [retractRev] using h []
      | cons s rest ih =>
        rw [retractRev]
        cases hc : check ((s :: rest).reverse) with
        | sat => exact absurd hc (h _)
        | unsat => simpa using ih
        | unknown => simpa using ih
    unfold getConcretization retractLoop
    rcases hr : retractRev check softs.reverse with ⟨c, rem⟩
    cases c with
    | sat =>
      have hk := key softs.reverse
      rw [hr] at hk
      simp at hk
    | unsat => rfl
    | unknown => rfl

/-- Witness for C8 (amended): with a solver that always answers unsat,
one retraction step equals running on the popped list, and the final
outcome is the backend error. -/
theorem C8_retract_tail_and_fail_witness :
    retractLoop (fun _ => CheckResult.unsat) ["a", "b"] =
      retractLoop (fun _ => CheckResult.unsat) (["a", "b"].dropLast) ∧
    getConcretization (fun _ => CheckResult.unsat) (fun l => l) ["a"] =
      Except.error
        (ExitStatus.BACKEND_ERROR, "Could not find a valid concretization.") :=
  ⟨(C8_retract_tail_and_fail (List String)).1 _ _ (by decide)
      (fun h => CheckResult.noConfusion h),
   (C8_retract_tail_and_fail (List String)).2 _ _ _
      (fun _ h => CheckResult.noConfusion h)⟩

/-- C4: (counterexample) two kinds `A = [0,1)` and `B = [1,2)` both use
pick `p` (typed `B`, one cell per step).  The model `sched 0 = 1`,
`p[0][0] = 0` satisfies the constraints `add_pick` generates (because
`can_pick` tests membership in the *first* kind using the pick, here
`A`, so the zero branch fires), yet the scheduled agent 1 belongs to
kind `B`, which uses the pick - so the claimed property (a valid
`B`-typed cell different from `sched[0]`) fails. -/
theorem C4_pick_claim_fails_with_shared_pick_name :
    addPickSat [⟨"A", 0, 1, ["p"]⟩, ⟨"B", 1, 2, ["p"]⟩] 2 1 1 (some "B") "p"
        (fun _ => 1) (fun _ _ => 0) = some true ∧
    pickClaimSat [⟨"A", 0, 1, ["p"]⟩, ⟨"B", 1, 2, ["p"]⟩] 2 1 1 (some "B") "p"
        (fun _ => 1) (fun _ _ => 0) = false :=
  ⟨rfl, rfl⟩

/-- C4 (amended): in every model satisfying the constraints of
`add_pick(name, size, typ)`, for every step `k`: if the scheduled agent
satisfies the type constraint of the *first* kind (in declaration
order) that uses pick `name`, the cells `pick[k][0..size)` are valid
ids of the pick's declared type (or any valid agent id when untyped),
pairwise distinct, and different from `sched[k]`; otherwise every cell
is 0. -/
theorem C4_pick_constraints_first_kind :
    ∀ (kinds : List AgentKind) (N : Int) (steps size : Nat)
      (typ : Option String) (name : String)
      (sched : Nat → Int) (p : Nat → Nat → Int)
      (cp cellOk : Int → Bool),
      canPickCond kinds name = some cp →
      pickCellOk kinds N typ = some cellOk →
      addPickSat kinds N steps size typ name sched p = some true →
      ∀ k < steps,
        (cp (sched k) = true →
          ((∀ i < size, cellOk (p k i) = true) ∧
           (∀ j < size, ∀ i < j, p k i ≠ p k j) ∧
           (∀ i < size, p k i ≠ sched k))) ∧
        (cp (sched k) = false → ∀ i < size, p k i = 0) := by
  intro kinds N steps size typ name sched p cp cellOk hcp hcell hsat k hk
  unfold addPickSat at hsat
  rw [hcp, hcell] at hsat
  simp only [Option.bind_eq_bind, Option.some_bind, Option.pure_def,
    Option.some.injEq] at hsat
  have hall := List.all_eq_true.mp hsat k (List.mem_range.mpr hk)
  constructor
  · intro hcpk
    rw [if_pos hcpk] at hall
    unfold pickStepOk at hall
    simp only [Bool.and_eq_true, List.all_eq_true, List.mem_range,
      decide_eq_true_eq] at hall
    obtain ⟨⟨h1, h2⟩, h3⟩ := hall
    exact ⟨fun i hi => h1 i hi, fun j hj i hij => h2 j hj i hij,
           fun i hi => h3 i hi⟩
  · intro hcpk
    rw [if_neg (by simp [hcpk])] at hall
    simp only [List.all_eq_true, List.mem_range, decide_eq_true_eq] at hall
    exact fun i hi => hall i hi

/-- Witness for C4 (amended), applied at the shared-pick-name model:
the zero branch forces the (only) pick cell to 0. -/
theorem C4_pick_constraints_first_kind_witness :
    (fun _ _ => (0 : Int)) 0 0 = 0 := by
  have h := C4_pick_constraints_first_kind
    [⟨"A", 0, 1, ["p"]⟩, ⟨"B", 1, 2, ["p"]⟩] 2 1 1 (some "B") "p"
    (fun _ => 1) (fun _ _ => 0)
    (fun x => decide (isOfTypeP (0, 1) x))
    (fun x => decide (isOfTypeP (1, 2) x))
    rfl rfl rfl
  exact (h 0 (by decide)).2 (by decide) 0 (by decide)

/-- `joins` of a one-element stripe set is empty (there is no pair of
distinct members). -/
theorem joins_singleton (x : Interval) (adj : Bool) : joins {x} adj = ∅ := by
  unfold joins
  apply Finset.eq_empty_iff_forall_not_mem.mpr
  intro y hy
  simp only [Finset.mem_image, Finset.mem_filter, Finset.mem_product,
    Finset.mem_singleton] at hy
  obtain ⟨p, ⟨⟨h1, h2⟩, hne, _⟩, _⟩ := hy
  exact hne (h1.trans h2.symm)

/-- `subsets` of a one-element stripe set is empty. -/
theorem subsets_singleton (x : Interval) : subsets {x} = ∅ := by
  unfold subsets
  apply Finset.eq_empty_iff_forall_not_mem.mpr
  intro a ha
  simp only [Finset.mem_filter, Finset.mem_singleton] at ha
  obtain ⟨ha1, b, hb, _, hne⟩ := ha
  exact hne (ha1.trans hb.symm)

/-- A one-element stripe set never triggers the `_prune` loop body. -/
theorem changed_singleton (x : Interval) (adj : Bool) : ¬ changed {x} adj := by
  unfold changed
  rw [joins_singleton]
  simp [subsets_singleton]

/-- `_prune` leaves a one-element stripe set unchanged. -/
theorem prune_singleton (x : Interval) (adj : Bool) : prune {x} adj = {x} := by
  unfold prune
  show pruneFuel (pruneMeasure {x} + 1) {x} adj = {x}
  rw [pruneFuel]
  rw [if_neg (changed_singleton x adj)]

/-- `Stripes.abstract` of a single value is the corresponding singleton
interval set. -/
theorem abstract_single (v : Int) :
    Stripes.abstract [v] = {(⟨v, v⟩ : Interval)} := by
  unfold Stripes.abstract
  have h : (([v].map (fun v => (⟨v, v⟩ : Interval)))).toFinset
      = {(⟨v, v⟩ : Interval)} := by simp
  rw [h, prune_singleton]

/-- C6: (counterexample) at `v = 2`, `lo = 0`, `hi = 2` the right-hand
side `lo ≤ v ≤ hi` of the claimed equivalence holds, but
`abstract(2).is_within(abstract_range(0, 2))` is false:
`abstract_range` over `[0..2)` is the interval `[0, 1]`, which does not
contain 2. -/
theorem C6_is_within_iff_fails_at_upper_bound :
    decide (Stripes.is_within (Stripes.abstract [2])
      (Stripes.abstract_range 0 2)) = false ∧
    ((0 : Int) ≤ 2 ∧ (2 : Int) ≤ 2) :=
  ⟨by decide, by decide⟩

/-- C6 (amended): for a nonempty range `[lo..hi)`,
`abstract(v).is_within(abstract_range(lo, hi))` holds iff
`lo ≤ v ≤ hi - 1` (i.e. `lo ≤ v < hi`). -/
theorem C6_abstract_is_within_range :
    ∀ (v lo hi : Int), lo < hi →
      (Stripes.is_within (Stripes.abstract [v]) (Stripes.abstract_range lo hi) ↔
        lo ≤ v ∧ v ≤ hi - 1) := by
  intro v lo hi _hlt
  rw [abstract_single]
  unfold Stripes.abstract_range Stripes.is_within
  constructor
  · rintro (heq | hall)
    · have h2 : (⟨v, v⟩ : Interval) = ⟨lo, hi - 1⟩ := by
        simpa using heq
      simp only [Interval.mk.injEq] at h2
      omega
    · obtain ⟨y, hy, hw⟩ := hall ⟨v, v⟩ (Finset.mem_singleton_self _)
      rw [Finset.mem_singleton] at hy
      subst hy
      obtain ⟨h1, h2⟩ := hw
      exact ⟨h1, h2⟩
  · intro h
    right
    intro x hx
    rw [Finset.mem_singleton] at hx
    subst hx
    exact ⟨⟨lo, hi - 1⟩, Finset.mem_singleton_self _, h.1, h.2⟩

/-- Witness for C6 (amended) at `v = 1`, `lo = 0`, `hi = 2`. -/
theorem C6_abstract_is_within_range_witness :
    Stripes.is_within (Stripes.abstract [1]) (Stripes.abstract_range 0 2) ↔
      ((0 : Int) ≤ 1 ∧ (1 : Int) ≤ 2 - 1) :=
  C6_abstract_is_within_range 1 0 2 (by decide)

/-! ### Termination and invariant of the `_prune` loop (for C5) -/

theorem overlaps_symm {a b : Interval} (h : Interval.overlaps a b) :
    Interval.overlaps b a := by
  unfold Interval.overlaps Interval.is_within at *
  omega

theorem adjacent_symm {a b : Interval} (h : Interval.adjacent a b) :
    Interval.adjacent b a := by
  obtain ⟨hno, heq⟩ := h
  refine ⟨fun hov => hno (overlaps_symm hov), ?_⟩
  omega

/-- The pair condition of `joins` is symmetric. -/
theorem joinCond_symm {a b : Interval} {adj : Bool}
    (h : Interval.overlaps a b ∨ (adj ∧ Interval.adjacent a b)) :
    Interval.overlaps b a ∨ (adj ∧ Interval.adjacent b a) := by
  rcases h with h | ⟨ha, h⟩
  · exact Or.inl (overlaps_symm h)
  · exact Or.inr ⟨ha, adjacent_symm h⟩

theorem antichain_min_inj {S : Finset Interval} (hS : isAntichain S)
    {a b : Interval} (ha : a ∈ S) (hb : b ∈ S) (h : a.min = b.min) :
    a = b := by
  rcases le_total a.max b.max with hle | hle
  · exact hS a ha b hb ⟨by omega, hle⟩
  · exact (hS b hb a ha ⟨by omega, hle⟩).symm

theorem antichain_max_mono {S : Finset Interval} (hS : isAntichain S)
    {a b : Interval} (ha : a ∈ S) (hb : b ∈ S) (h : a.min < b.min) :
    a.max < b.max := by
  by_contra hle
  have hw : Interval.is_within b a := ⟨by omega, by omega⟩
  have := hS b hb a ha hw
  subst this
  omega

theorem within_join_left (a b : Interval) :
    Interval.is_within a (Interval.join a b) := by
  unfold Interval.is_within Interval.join
  constructor
  · exact min_le_left _ _
  · exact le_max_left _ _

theorem within_join_right (a b : Interval) :
    Interval.is_within b (Interval.join a b) := by
  unfold Interval.is_within Interval.join
  constructor
  · exact min_le_right _ _
  · exact le_max_right _ _

theorem within_of_join_eq_left {a b : Interval}
    (h : Interval.join a b = a) : Interval.is_within b a := by
  unfold Interval.join at h
  rw [Interval.mk.injEq] at h
  unfold Interval.is_within
  omega

/-- Membership in `joins` from a qualifying pair. -/
theorem join_mem_joins {S : Finset Interval} {adj : Bool} {a b : Interval}
    (ha : a ∈ S) (hb : b ∈ S) (hne : a ≠ b)
    (hc : Interval.overlaps a b ∨ (adj ∧ Interval.adjacent a b)) :
    Interval.join a b ∈ joins S adj := by
  unfold joins
  rw [Finset.mem_image]
  refine ⟨(a, b), ?_, rfl⟩
  rw [Finset.mem_filter, Finset.mem_product]
  refine ⟨⟨ha, hb⟩, hne, ?_⟩
  simpa using hc

/-- Decomposition of a `joins` member. -/
theorem joins_decomp {S : Finset Interval} {adj : Bool} {t : Interval}
    (h : t ∈ joins S adj) :
    ∃ a b, a ∈ S ∧ b ∈ S ∧ a ≠ b ∧
      (Interval.overlaps a b ∨ (adj ∧ Interval.adjacent a b)) ∧
      t = Interval.join a b := by
  unfold joins at h
  rw [Finset.mem_image] at h
  obtain ⟨p, hp, hj⟩ := h
  rw [Finset.mem_filter, Finset.mem_product] at hp
  obtain ⟨⟨h1, h2⟩, hne, hc⟩ := hp
  exact ⟨p.1, p.2, h1, h2, hne, by simpa using hc, hj.symm⟩

/-- In an antichain the join of two distinct members is itself not a
member. -/
theorem join_not_mem {S : Finset Interval} (hS : isAntichain S)
    {a b : Interval} (ha : a ∈ S) (hb : b ∈ S) (hne : a ≠ b) :
    Interval.join a b ∉ S := by
  intro hmem
  have h1 : a = Interval.join a b :=
    hS a ha _ hmem (within_join_left a b)
  have h2 : Interval.is_within b a := within_of_join_eq_left h1.symm
  exact hne (hS b hb a ha h2).symm

/-- `pruneStep` keeps exactly the maximal elements, hence an antichain. -/
theorem pruneStep_antichain (S : Finset Interval) (adj : Bool) :
    isAntichain (pruneStep S adj) := by
  intro a ha b hb hw
  by_contra hne
  unfold pruneStep at ha hb
  rw [Finset.mem_sdiff] at ha hb
  exact ha.2 (by
    unfold subsets
    rw [Finset.mem_filter]
    exact ⟨ha.1, b, hb.1, hw, hne⟩)

/-- Every member of `pruneStep S adj` comes from `S` or from the joins. -/
theorem mem_pruneStep_cases {S : Finset Interval} {adj : Bool} {t : Interval}
    (h : t ∈ pruneStep S adj) : t ∈ S ∨ t ∈ joins S adj := by
  unfold pruneStep at h
  rw [Finset.mem_sdiff, Finset.mem_union] at h
  exact h.1

/-- In an antichain, any member with a qualifying partner is removed by
`pruneStep` (it lies strictly within the pair's join). -/
theorem edge_not_mem_pruneStep {S : Finset Interval} {adj : Bool}
    (hS : isAntichain S) {a b : Interval} (ha : a ∈ S) (hb : b ∈ S)
    (hne : a ≠ b)
    (hc : Interval.overlaps a b ∨ (adj ∧ Interval.adjacent a b)) :
    a ∉ pruneStep S adj := by
  intro hmem
  unfold pruneStep at hmem
  rw [Finset.mem_sdiff] at hmem
  apply hmem.2
  unfold subsets
  rw [Finset.mem_filter]
  refine ⟨hmem.1, Interval.join a b, ?_, within_join_left a b, ?_⟩
  · rw [Finset.mem_union]
    exact Or.inr (join_mem_joins ha hb hne hc)
  · intro heq
    have h2 : Interval.is_within b a := within_of_join_eq_left heq.symm
    exact hne (hS b hb a ha h2).symm

/-- In an antichain `subsets` is empty. -/
theorem subsets_antichain {S : Finset Interval} (hS : isAntichain S) :
    subsets S = ∅ := by
  apply Finset.eq_empty_iff_forall_not_mem.mpr
  intro a ha
  unfold subsets at ha
  rw [Finset.mem_filter] at ha
  obtain ⟨haS, b, hb, hw, hne⟩ := ha
  exact hne (hS a haS b hb hw)

/-- In an antichain, `changed` forces `joins` to be nonempty. -/
theorem joins_nonempty_of_changed {S : Finset Interval} {adj : Bool}
    (hS : isAntichain S) (h : changed S adj) : (joins S adj).Nonempty := by
  rcases h with h | h
  · exact h
  · by_contra hne
    rw [Finset.not_nonempty_iff_eq_empty] at hne
    rw [hne, Finset.union_empty, subsets_antichain hS] at h
    exact absurd h (by simp)

/-- The key cardinality argument: on an antichain, a changing
`pruneStep` strictly shrinks the set.  Every member with a qualifying
partner disappears (it lies inside the pair's join), each surviving
join is determined by its `min`, realized by one of its operands, while
its `max` is realized by a *different* operand with a strictly larger
`max` - so the partner with the overall largest `max` is never hit, and
the surviving set injects into the original minus that member. -/
theorem card_pruneStep_lt {S : Finset Interval} {adj : Bool}
    (hS : isAntichain S) (hch : changed S adj) :
    (pruneStep S adj).card < S.card := by
  classical
  set E := S.filter (fun a => ∃ b ∈ S, a ≠ b ∧
    (Interval.overlaps a b ∨ (adj ∧ Interval.adjacent a b))) with hE
  obtain ⟨t0, ht0⟩ := joins_nonempty_of_changed hS hch
  obtain ⟨a0, b0, ha0, hb0, hne0, hc0, -⟩ := joins_decomp ht0
  have hEne : E.Nonempty := ⟨a0, by
    rw [hE, Finset.mem_filter]
    exact ⟨ha0, b0, hb0, hne0, hc0⟩⟩
  obtain ⟨rstar, hrE, hrmax⟩ := Finset.exists_max_image E (fun v => v.max) hEne
  have hrS : rstar ∈ S := (Finset.mem_filter.mp (hE ▸ hrE)).1
  have decomp : ∀ t ∈ pruneStep S adj, t ∉ S →
      ∃ l r, l ∈ E ∧ r ∈ E ∧ t.min = l.min ∧ t.max = r.max ∧
        l.max < r.max := by
    intro t ht htS
    rcases mem_pruneStep_cases ht with h | h
    · exact absurd h htS
    obtain ⟨a, b, ha, hb, hne, hc, hteq⟩ := joins_decomp h
    have hmins : a.min ≠ b.min := fun hmm => hne (antichain_min_inj hS ha hb hmm)
    have haE : a ∈ E := by
      rw [hE, Finset.mem_filter]
      exact ⟨ha, b, hb, hne, hc⟩
    have hbE : b ∈ E := by
      rw [hE, Finset.mem_filter]
      exact ⟨hb, a, ha, hne.symm, joinCond_symm hc⟩
    rcases lt_or_gt_of_ne hmins with hlt | hlt
    · have hmax : a.max < b.max := antichain_max_mono hS ha hb hlt
      refine ⟨a, b, haE, hbE, ?_, ?_, hmax⟩
      · rw [hteq]
        show (Interval.join a b).min = a.min
        unfold Interval.join
        dsimp only
        omega
      · rw [hteq]
        show (Interval.join a b).max = b.max
        unfold Interval.join
        dsimp only
        omega
    · have hmax : b.max < a.max := antichain_max_mono hS hb ha hlt
      refine ⟨b, a, hbE, haE, ?_, ?_, hmax⟩
      · rw [hteq]
        show (Interval.join a b).min = b.min
        unfold Interval.join
        dsimp only
        omega
      · rw [hteq]
        show (Interval.join a b).max = a.max
        unfold Interval.join
        dsimp only
        omega
  set φ : Interval → Interval := fun t =>
    if t ∈ S then t
    else if h : ∃ s ∈ E, s.min = t.min then h.choose else t with hφ
  have hφS : ∀ t, t ∈ S → φ t = t := by
    intro t htS
    simp only [hφ]
    rw [if_pos htS]
  have hφJ : ∀ t ∈ pruneStep S adj, t ∉ S → φ t ∈ E ∧ (φ t).min = t.min := by
    intro t ht htS
    obtain ⟨l, r, hlE, hrE2, hmin, hmax, hlr⟩ := decomp t ht htS
    have hex : ∃ s ∈ E, s.min = t.min := ⟨l, hlE, hmin.symm⟩
    simp only [hφ]
    rw [if_neg htS, dif_pos hex]
    exact ⟨hex.choose_spec.1, hex.choose_spec.2⟩
  have hTnoE : ∀ t ∈ pruneStep S adj, t ∈ S → t ∉ E := by
    intro t ht htS htE
    rw [hE, Finset.mem_filter] at htE
    obtain ⟨-, b, hb, hne, hc⟩ := htE
    exact edge_not_mem_pruneStep hS htS hb hne hc ht
  have hmaps : ∀ t ∈ pruneStep S adj, φ t ∈ S.erase rstar := by
    intro t ht
    by_cases htS : t ∈ S
    · rw [hφS t htS, Finset.mem_erase]
      exact ⟨fun heq => hTnoE t ht htS (heq ▸ hrE), htS⟩
    · obtain ⟨hφE, hφmin⟩ := hφJ t ht htS
      have hφSmem : φ t ∈ S := (Finset.mem_filter.mp (hE ▸ hφE)).1
      rw [Finset.mem_erase]
      refine ⟨?_, hφSmem⟩
      intro heq
      obtain ⟨l, r, hlE, hrE2, hmin, hmax, hlr⟩ := decomp t ht htS
      have hlS : l ∈ S := (Finset.mem_filter.mp (hE ▸ hlE)).1
      have hφl : φ t = l :=
        antichain_min_inj hS hφSmem hlS (by rw [hφmin, hmin])
      have hrmax2 := hrmax r hrE2
      rw [← heq, hφl] at hrmax2
      omega
  have hinj : Set.InjOn φ (pruneStep S adj) := by
    intro t1 ht1 t2 ht2 heq
    simp only [Finset.mem_coe] at ht1 ht2
    by_cases h1 : t1 ∈ S <;> by_cases h2 : t2 ∈ S
    · rw [hφS t1 h1, hφS t2 h2] at heq
      exact heq
    · exfalso
      obtain ⟨hE2, -⟩ := hφJ t2 ht2 h2
      rw [hφS t1 h1] at heq
      exact hTnoE t1 ht1 h1 (heq ▸ hE2)
    · exfalso
      obtain ⟨hE1, -⟩ := hφJ t1 ht1 h1
      rw [hφS t2 h2] at heq
      exact hTnoE t2 ht2 h2 (heq.symm ▸ hE1)
    · obtain ⟨-, hm1⟩ := hφJ t1 ht1 h1
      obtain ⟨-, hm2⟩ := hφJ t2 ht2 h2
      have hmm : t1.min = t2.min := by rw [← hm1, ← hm2, heq]
      exact antichain_min_inj (pruneStep_antichain S adj) ht1 ht2 hmm
  have hcard := Finset.card_le_card_of_injOn φ hmaps hinj
  have herase : (S.erase rstar).card = S.card - 1 :=
    Finset.card_erase_of_mem hrS
  have hpos : 1 ≤ S.card := Finset.card_pos.mpr ⟨rstar, hrS⟩
  omega

/-- The fuel measure strictly decreases across a changing `pruneStep`. -/
theorem pruneMeasure_decreases {S : Finset Interval} {adj : Bool}
    (hch : changed S adj) :
    pruneMeasure (pruneStep S adj) < pruneMeasure S := by
  have hT : pruneMeasure (pruneStep S adj) = (pruneStep S adj).card := by
    unfold pruneMeasure
    rw [if_pos (pruneStep_antichain S adj)]
  by_cases hS : isAntichain S
  · rw [hT]
    unfold pruneMeasure
    rw [if_pos hS]
    exact card_pruneStep_lt hS hch
  · rw [hT]
    unfold pruneMeasure
    rw [if_neg hS]
    have h1 : (pruneStep S adj).card ≤ (S ∪ joins S adj).card := by
      apply Finset.card_le_card
      unfold pruneStep
      exact Finset.sdiff_subset
    have h2 : (S ∪ joins S adj).card ≤ S.card + (joins S adj).card :=
      Finset.card_union_le _ _
    have h3 : (joins S adj).card ≤ S.card * S.card := by
      unfold joins
      refine le_trans Finset.card_image_le
        (le_trans (Finset.card_filter_le _ _) ?_)
      exact (Finset.card_product S S).le
    omega

/-- With fuel above the measure, the `_prune` loop reaches its exit
condition. -/
theorem pruneFuel_not_changed :
    ∀ (n : Nat) (S : Finset Interval) (adj : Bool), pruneMeasure S < n →
      ¬ changed (pruneFuel n S adj) adj := by
  intro n
  induction n with
  | zero => intro S adj h; omega
  | succ k ih =>
    intro S adj h
    rw [pruneFuel]
    by_cases hch : changed S adj
    · rw [if_pos hch]
      exact ih _ adj (by
        have := pruneMeasure_decreases hch
        omega)
    · rw [if_neg hch]
      exact hch

/-- The `_prune` loop terminates with `changed` false. -/
theorem prune_not_changed (S : Finset Interval) (adj : Bool) :
    ¬ changed (prune S adj) adj :=
  pruneFuel_not_changed (pruneMeasure S + 1) S adj (by omega)

/-- The exit condition of the `_prune` loop is exactly the two `Stripes`
invariants. -/
theorem StripesInv_of_not_changed {S : Finset Interval} {adj : Bool}
    (h : ¬ changed S adj) : StripesInv S := by
  constructor
  · intro a ha b hb hne hov
    exact h (Or.inl ⟨_, join_mem_joins ha hb hne (Or.inl hov)⟩)
  · intro a ha b hb hne hw
    apply h
    refine Or.inr ⟨a, ?_⟩
    unfold subsets
    rw [Finset.mem_filter, Finset.mem_union]
    exact ⟨Or.inl ha, b, by rw [Finset.mem_union]; exact Or.inl hb, hw, hne⟩

/-- `Stripes._prune` always returns a set satisfying both invariants. -/
theorem StripesInv_prune (S : Finset Interval) (adj : Bool) :
    StripesInv (prune S adj) :=
  StripesInv_of_not_changed (prune_not_changed S adj)

/-- Singleton stripe sets satisfy the invariants. -/
theorem StripesInv_singleton (x : Interval) : StripesInv {x} := by
  constructor <;>
    · intro a ha b hb hne
      rw [Finset.mem_singleton] at ha hb
      exact absurd (ha.trans hb.symm) hne

/-- The invariants are inherited by subsets. -/
theorem StripesInv_subset {S T : Finset Interval} (hsub : T ⊆ S)
    (h : StripesInv S) : StripesInv T :=
  ⟨fun a ha b hb => h.1 a (hsub ha) b (hsub hb),
   fun a ha b hb => h.2 a (hsub ha) b (hsub hb)⟩

/-- Membership in an ordered insertion. -/
theorem mem_insIv (x a : Interval) :
    ∀ l, x ∈ Stripes.insIv a l ↔ x = a ∨ x ∈ l := by
  intro l
  induction l with
  | nil => simp [Stripes.insIv]
  | cons w rest ih =>
    cases h : Stripes.ivLeB a w with
    | true => simp [Stripes.insIv, h, List.mem_cons]
    | false =>
      simp only [Stripes.insIv, h, Bool.false_eq_true, if_false,
        List.mem_cons, ih]
      tauto

/-- Membership in an insertion sort. -/
theorem mem_foldr_insIv (x : Interval) :
    ∀ l : List Interval, x ∈ l.foldr Stripes.insIv [] ↔ x ∈ l := by
  intro l
  induction l with
  | nil => simp
  | cons w rest ih => simp [List.foldr, mem_insIv, ih]

/-- `Stripes.sortedList` enumerates exactly the members of the set. -/
theorem mem_sortedList (S : Finset Interval) (x : Interval) :
    x ∈ Stripes.sortedList S ↔ x ∈ S := by
  rw [← Finset.mem_val]
  show x ∈ Multiset.foldr Stripes.insIv [] S.val ↔ x ∈ S.val
  induction S.val using Quotient.inductionOn with
  | h l =>
    show x ∈ List.foldr Stripes.insIv [] l ↔ x ∈ (l : Multiset Interval)
    rw [Multiset.mem_coe]
    exact mem_foldr_insIv x l

/-- `Stripes.__lt__` only returns one-interval stripe sets. -/
theorem lt_shape (S T R : Finset Interval) (h : Stripes.lt S T = some R) :
    ∃ x, R = {x} := by
  unfold Stripes.lt at h
  cases hS : Stripes.extrema S with
  | none => rw [hS] at h; simp at h
  | some pS =>
    obtain ⟨mn, mx⟩ := pS
    rw [hS] at h
    cases hT : Stripes.extrema T with
    | none => rw [hT] at h; simp at h
    | some pT =>
      obtain ⟨omn, omx⟩ := pT
      rw [hT] at h
      simp only [Option.bind_eq_bind, Option.some_bind] at h
      unfold Stripes.NO Stripes.YES Stripes.MAYBE at h
      split at h
      · split at h
        · exact ⟨_, (Option.some.inj h).symm⟩
        · split at h
          · exact ⟨_, (Option.some.inj h).symm⟩
          · split at h
            · exact ⟨_, (Option.some.inj h).symm⟩
            · exact ⟨_, (Option.some.inj h).symm⟩
      · split at h
        · split at h
          · exact ⟨_, (Option.some.inj h).symm⟩
          · split at h
            · exact ⟨_, (Option.some.inj h).symm⟩
            · exact ⟨_, (Option.some.inj h).symm⟩
        · split at h
          · exact ⟨_, (Option.some.inj h).symm⟩
          · split at h
            · exact ⟨_, (Option.some.inj h).symm⟩
            · exact ⟨_, (Option.some.inj h).symm⟩

/-- `Stripes.Or` only returns one-interval stripe sets. -/
theorem orOp_shape (S T R : Finset Interval) (h : Stripes.orOp S T = some R) :
    ∃ x, R = {x} := by
  unfold Stripes.orOp at h
  cases hS : Stripes.extrema S with
  | none => rw [hS] at h; simp at h
  | some pS =>
    obtain ⟨mn, mx⟩ := pS
    rw [hS] at h
    cases hT : Stripes.extrema T with
    | none => rw [hT] at h; simp at h
    | some pT =>
      obtain ⟨omn, omx⟩ := pT
      rw [hT] at h
      simp only [Option.bind_eq_bind, Option.some_bind] at h
      unfold Stripes.NO Stripes.YES Stripes.MAYBE at h
      split at h
      · exact ⟨_, (Option.some.inj h).symm⟩
      · split at h
        · exact ⟨_, (Option.some.inj h).symm⟩
        · exact ⟨_, (Option.some.inj h).symm⟩

/-- C5: every `Stripes` operation - `abstract`, `abstract_range`, the
lattice join `|`, `+`, `-`, `*`, `mod`, unary minus, `abs`, logical
negation `~`, `Min`, `Max`, `Range`, `equality`, the comparisons
`< > >= <=`, `join_adjacent`, and both halves returned by `bisect` -
returns a stripe set in which no two distinct intervals overlap and no
interval is contained in another. -/
theorem C5_stripes_ops_preserve_invariants :
    (∀ vs, StripesInv (Stripes.abstract vs)) ∧
    (∀ lo hi, StripesInv (Stripes.abstract_range lo hi)) ∧
    (∀ S T, StripesInv (Stripes.orJoin S T)) ∧
    (∀ S T, StripesInv (Stripes.add S T)) ∧
    (∀ S T, StripesInv (Stripes.sub S T)) ∧
    (∀ S T, StripesInv (Stripes.mul S T)) ∧
    (∀ S T R, Stripes.modS S T = some R → StripesInv R) ∧
    (∀ S, StripesInv (Stripes.neg S)) ∧
    (∀ S, StripesInv (Stripes.sabs S)) ∧
    (∀ S, StripesInv (Stripes.inv S)) ∧
    (∀ S T, StripesInv (Stripes.Minop S T)) ∧
    (∀ S T, StripesInv (Stripes.Maxop S T)) ∧
    (∀ S T R, Stripes.rangeOp S T = some R → StripesInv R) ∧
    (∀ S T, StripesInv (Stripes.equality S T)) ∧
    (∀ S T R, Stripes.lt S T = some R → StripesInv R) ∧
    (∀ S T R, Stripes.gt S T = some R → StripesInv R) ∧
    (∀ S T R, Stripes.ge S T = some R → StripesInv R) ∧
    (∀ S T R, Stripes.le S T = some R → StripesInv R) ∧
    (∀ S, StripesInv (Stripes.join_adjacent S)) ∧
    (∀ S A B, StripesInv S → Stripes.bisect S = some (A, B) →
      StripesInv A ∧ StripesInv B) := by
  have hlt : ∀ S T R, Stripes.lt S T = some R → StripesInv R := by
    intro S T R h
    obtain ⟨x, rfl⟩ := lt_shape S T R h
    exact StripesInv_singleton x
  refine ⟨?_, ?_, ?_, ?_, ?_, ?_, ?_, ?_, ?_, ?_, ?_, ?_, ?_, ?_, ?_, ?_,
    ?_, ?_, ?_, ?_⟩
  · intro vs; exact StripesInv_prune _ _
  · intro lo hi; exact StripesInv_singleton _
  · intro S T; exact StripesInv_prune _ _
  · intro S T; exact StripesInv_prune _ _
  · intro S T; exact StripesInv_prune _ _
  · intro S T; exact StripesInv_prune _ _
  · intro S T R h
    unfold Stripes.modS at h
    split at h
    · cases Option.some.inj h
      exact StripesInv_prune _ _
    · exact absurd h (by simp)
  · intro S; exact StripesInv_prune _ _
  · intro S; exact StripesInv_prune _ _
  · intro S; exact StripesInv_prune _ _
  · intro S T; exact StripesInv_prune _ _
  · intro S T; exact StripesInv_prune _ _
  · intro S T R h
    unfold Stripes.rangeOp at h
    dsimp only at h
    split at h
    · exact absurd h (by simp)
    · cases Option.some.inj h
      exact StripesInv_prune _ _
  · intro S T; exact StripesInv_prune _ _
  · exact hlt
  · intro S T R h
    exact hlt T S R h
  · intro S T R h
    unfold Stripes.ge at h
    cases hg : Stripes.gt S T with
    | none => rw [hg] at h; simp at h
    | some g =>
      rw [hg] at h
      simp only [Option.bind_eq_bind, Option.some_bind] at h
      obtain ⟨x, rfl⟩ := orOp_shape _ _ R h
      exact StripesInv_singleton x
  · intro S T R h
    unfold Stripes.le at h
    cases hg : Stripes.lt S T with
    | none => rw [hg] at h; simp at h
    | some g =>
      rw [hg] at h
      simp only [Option.bind_eq_bind, Option.some_bind] at h
      obtain ⟨x, rfl⟩ := orOp_shape _ _ R h
      exact StripesInv_singleton x
  · intro S; exact StripesInv_prune _ _
  · intro S A B hinv h
    unfold Stripes.bisect at h
    split at h
    · rw [Option.some.injEq, Prod.mk.injEq] at h
      obtain ⟨hA, hB⟩ := h
      subst hA
      subst hB
      constructor
      · refine StripesInv_subset ?_ hinv
        intro x hx
        rw [List.mem_toFinset] at hx
        have hx2 := List.take_subset _ _ hx
        exact (mem_sortedList S x).mp hx2
      · refine StripesInv_subset ?_ hinv
        intro x hx
        rw [List.mem_toFinset] at hx
        have hx2 := List.drop_subset _ _ hx
        exact (mem_sortedList S x).mp hx2
    · split at h
      · exact absurd h (by simp)
      · split at h
        · rw [Option.some.injEq, Prod.mk.injEq] at h
          obtain ⟨hA, hB⟩ := h
          subst hA
          subst hB
          exact ⟨StripesInv_singleton _, StripesInv_singleton _⟩
        · exact absurd h (by simp)

/-- Witness for C5: concrete instances for the conjuncts with
hypotheses (`mod`, `Range`, the comparisons, `bisect`), each hypothesis
discharged by computation. -/
theorem C5_stripes_ops_preserve_invariants_witness :
    StripesInv ({(⟨2, 2⟩ : Interval), ⟨1, 1⟩} : Finset Interval) ∧
    StripesInv ({(⟨0, 2⟩ : Interval)} : Finset Interval) ∧
    StripesInv (Stripes.YES) ∧
    StripesInv (Stripes.MAYBE) ∧
    (StripesInv ({(⟨0, 2⟩ : Interval)} : Finset Interval) ∧
     StripesInv ({(⟨5, 5⟩ : Interval)} : Finset Interval)) := by
  have hm := C5_stripes_ops_preserve_invariants.2.2.2.2.2.2.1
    (Stripes.abstract [5, 7]) (Stripes.abstract [3])
    {(⟨2, 2⟩ : Interval), ⟨1, 1⟩} (by rfl)
  have hr := C5_stripes_ops_preserve_invariants.2.2.2.2.2.2.2.2.2.2.2.2.1
    (Stripes.abstract [0]) (Stripes.abstract [3])
    {(⟨0, 2⟩ : Interval)} (by decide)
  have hlt := C5_stripes_ops_preserve_invariants.2.2.2.2.2.2.2.2.2.2.2.2.2.2.1
    (Stripes.abstract [4, 5]) (Stripes.abstract [6]) Stripes.YES (by decide)
  have hge :=
    C5_stripes_ops_preserve_invariants.2.2.2.2.2.2.2.2.2.2.2.2.2.2.2.2.1
    (Stripes.abstract [4, 5]) (Stripes.abstract [5]) Stripes.MAYBE (by decide)
  have hbi :=
    C5_stripes_ops_preserve_invariants.2.2.2.2.2.2.2.2.2.2.2.2.2.2.2.2.2.2.2
    (Stripes.abstract [0, 1, 2, 5]) {(⟨0, 2⟩ : Interval)}
    {(⟨5, 5⟩ : Interval)} (by decide) (by rfl)
  exact ⟨hm, hr, hlt, hge, hbi⟩

end Sliver
